import Mathlib

/-! Sudoku solver: a shallow embedding of `controllers/sudoku-solver.js`.

The class `SudokuSolver` is stateless apart from its two constants, so every
method becomes a function.  A JavaScript string is a sequence of UTF-16 code
units; it is embedded as a `List Char`, one character per code unit, and a
grid cell (a one-character string) as a `Char`.  `null` is `none`.

The grid the methods mutate in place is passed explicitly: a method that
writes to the grid returns the grid it leaves behind.
-/

namespace SudokuSolver

/-! ## Values of the host language -/

/-- A JavaScript number, as far as the engine can tell numbers apart: `NaN`, a
number with an integer value (`Number.isInteger` holds; `-0` is `0`), or any
other number (a fraction or an infinity). -/
inductive JSNum where
  | nan
  | int (z : Int)
  | nonInt
  deriving DecidableEq, Repr

/-- A JavaScript value handed to the engine: a string, a number, or a value of
any other type, of which only its string conversion `String(value)` matters.
These are the values whose string conversion returns; an object for which
`String(value)` throws is `AnyVal.noString` below. -/
inductive JSVal where
  | str (s : List Char)
  | num (n : JSNum)
  | other (asString : List Char)
  deriving DecidableEq, Repr

/-- The built-in functions of the host language the engine calls and does not
define: `String.prototype.trim`, `String.prototype.toUpperCase`, `Number`
applied to a string, and `String` applied to a number. -/
structure Builtins where
  trim : List Char → List Char
  toUpperCase : List Char → List Char
  toNumber : List Char → JSNum
  numberToString : JSNum → List Char

/-- The conversion `String(value)` of a value for which it returns. -/
def Builtins.toStr (B : Builtins) : JSVal → List Char
  | .str s => s
  | .num n => B.numberToString n
  | .other asString => asString

/-! ## Constants and the grid -/

/-- The constant `this.SIZE`. -/
def SIZE : Nat := 9

/-- The constant `this.SUBGRID`. -/
def SUBGRID : Nat := 3

/-- A grid: an array of rows, each an array of one-character cells. -/
abbrev Grid := List (List Char)

/-- The read `grid[row][column]`; `none` is `undefined`. -/
def cell (grid : Grid) (row column : Nat) : Option Char :=
  match grid[row]? with
  | none => none
  | some cells => cells[column]?

/-- The write `grid[row][column] = value`.  The program only writes to cells
that exist; a write outside the grid leaves it as it is. -/
def setCell (grid : Grid) (row column : Nat) (value : Char) : Grid :=
  match grid[row]? with
  | none => grid
  | some cells => grid.set row (cells.set column value)

/-! ## validate -/

/-- The object `validate` returns: `{ valid: true }` or
`{ valid: false, error }`. -/
inductive Validation where
  | ok
  | fail (error : String)
  deriving DecidableEq, Repr

/-- The field `valid` of a validation result. -/
def Validation.valid : Validation → Bool
  | .ok => true
  | .fail _ => false

/-- A character of the class `[1-9.]`. -/
def isPuzzleChar (ch : Char) : Bool :=
  ('1' ≤ ch && ch ≤ '9') || ch == '.'

/-- The test `/[^1-9.]/.test(puzzleString)`: some character lies outside the
class. -/
def hasInvalidChar (puzzleString : List Char) : Bool :=
  puzzleString.any fun ch => !isPuzzleChar ch

/-- The method `validate`. -/
def validate : JSVal → Validation
  | .str puzzleString =>
    if puzzleString.length ≠ SIZE * SIZE then
      .fail "Expected puzzle to be 81 characters long"
    else if hasInvalidChar puzzleString then
      .fail "Invalid characters in puzzle"
    else
      .ok
  | _ => .fail "Invalid characters in puzzle"

/-! ## Normalisation of coordinates and values -/

/-- The numeric tail shared by `_normalizeRow` and `_normalizeColumn`: an
integer in `1..9` is read as 1-based, otherwise an integer in `0..8` is kept. -/
def normalizeNumber : JSVal → Option Nat
  | .num (.int z) =>
    if 1 ≤ z ∧ z ≤ (SIZE : Int) then some (z - 1).toNat
    else if 0 ≤ z ∧ z < (SIZE : Int) then some z.toNat
    else none
  | _ => none

/-- The method `_normalizeRow`. -/
def _normalizeRow (B : Builtins) (row : JSVal) : Option Nat :=
  match row with
  | .str s =>
    let trimmed := B.trim s
    if trimmed.isEmpty then none
    else
      let upper := B.toUpperCase trimmed
      let letter : Option Nat :=
        match upper with
        | [ch] =>
          let code := ch.toNat
          if 65 ≤ code ∧ code ≤ 73 then some (code - 65) else none
        | _ => none
      match letter with
      | some index => some index
      | none =>
        match B.toNumber trimmed with
        | .nan => none
        | parsed => normalizeNumber (.num parsed)
  | other => normalizeNumber other

/-- The method `_normalizeColumn`. -/
def _normalizeColumn (B : Builtins) (column : JSVal) : Option Nat :=
  match column with
  | .str s =>
    let trimmed := B.trim s
    if trimmed.isEmpty then none
    else
      match B.toNumber trimmed with
      | .nan => none
      | parsed => normalizeNumber (.num parsed)
  | other => normalizeNumber other

/-- The method `_normalizeValue`: `String(value)` must match `/^[1-9]$/`. -/
def _normalizeValue (B : Builtins) (value : JSVal) : Option Char :=
  match B.toStr value with
  | [ch] => if '1' ≤ ch ∧ ch ≤ '9' then some ch else none
  | _ => none

/-- The method `rowToIndex`. -/
def rowToIndex (B : Builtins) (row : JSVal) : Option Nat :=
  _normalizeRow B row

/-- The method `columnToIndex`. -/
def columnToIndex (B : Builtins) (column : JSVal) : Option Nat :=
  _normalizeColumn B column

/-! ## String and grid -/

/-- The method `_stringToGrid`: row `r` is
`puzzleString.slice(r * 9, (r + 1) * 9).split('')`. -/
def _stringToGrid (puzzleString : List Char) : Grid :=
  (List.range SIZE).map fun r =>
    (puzzleString.drop (r * SIZE)).take ((r + 1) * SIZE - r * SIZE)

/-- The method `_gridToString`. -/
def _gridToString (grid : Grid) : List Char :=
  (grid.map fun row => (row.map fun ch => [ch]).flatten).flatten

/-- The record `_normalizeInputs` returns. -/
structure Normalized where
  grid : Grid
  rowIndex : Nat
  columnIndex : Nat
  val : Char
  originalValue : Option Char

/-- The method `_normalizeInputs`. -/
def _normalizeInputs (B : Builtins) (puzzleString row column value : JSVal) :
    Option Normalized :=
  match puzzleString with
  | .str s =>
    if (validate (.str s)).valid then
      match _normalizeRow B row, _normalizeColumn B column, _normalizeValue B value with
      | some rowIndex, some columnIndex, some val =>
        let grid := _stringToGrid s
        some ⟨grid, rowIndex, columnIndex, val, cell grid rowIndex columnIndex⟩
      | _, _, _ => none
    else none
  | _ => none

/-! ## Placement checks -/

/-- The method `checkRowPlacement`.  The grid it clears and restores is its own
copy, built by `_normalizeInputs`, and is dropped on return. -/
def checkRowPlacement (B : Builtins) (puzzleString row column value : JSVal) : Bool :=
  match _normalizeInputs B puzzleString row column value with
  | none => false
  | some n =>
    let grid := setCell n.grid n.rowIndex n.columnIndex '.'
    if (List.range SIZE).any fun c =>
        c != n.columnIndex && cell grid n.rowIndex c == some n.val then false
    else true

/-- The method `checkColPlacement`. -/
def checkColPlacement (B : Builtins) (puzzleString row column value : JSVal) : Bool :=
  match _normalizeInputs B puzzleString row column value with
  | none => false
  | some n =>
    let grid := setCell n.grid n.rowIndex n.columnIndex '.'
    if (List.range SIZE).any fun r =>
        r != n.rowIndex && cell grid r n.columnIndex == some n.val then false
    else true

/-- The method `checkRegionPlacement`. -/
def checkRegionPlacement (B : Builtins) (puzzleString row column value : JSVal) : Bool :=
  match _normalizeInputs B puzzleString row column value with
  | none => false
  | some n =>
    let grid := setCell n.grid n.rowIndex n.columnIndex '.'
    let startRow := n.rowIndex / SUBGRID * SUBGRID
    let startCol := n.columnIndex / SUBGRID * SUBGRID
    if (List.range SUBGRID).any fun r => (List.range SUBGRID).any fun c =>
        let currentRow := startRow + r
        let currentCol := startCol + c
        (currentRow != n.rowIndex || currentCol != n.columnIndex)
          && cell grid currentRow currentCol == some n.val then false
    else true

/-! ## The solver -/

/-- The method `_isSafe`: the value occurs nowhere in the row, the column and
the 3x3 block of the cell. -/
def _isSafe (grid : Grid) (row column : Nat) (value : Char) : Bool :=
  if (List.range SIZE).any fun c => cell grid row c == some value then false
  else if (List.range SIZE).any fun r => cell grid r column == some value then false
  else
    let startRow := row / SUBGRID * SUBGRID
    let startCol := column / SUBGRID * SUBGRID
    if (List.range SUBGRID).any fun r => (List.range SUBGRID).any fun c =>
        cell grid (startRow + r) (startCol + c) == some value then false
    else true

/-- The cells in the order the two nested loops `for r` / `for c` visit them. -/
def scanOrder : List (Nat × Nat) :=
  (List.range SIZE).flatMap fun r => (List.range SIZE).map fun c => (r, c)

/-- The nested loops of `_isInitialBoardValid` over the cells still to visit:
the result and the grid left behind.  Every cell visited exists on the 9x9
grids `solve` builds; a cell that does not exist is passed over. -/
def initialBoardLoop : List (Nat × Nat) → Grid → Bool × Grid
  | [], grid => (true, grid)
  | (r, c) :: rest, grid =>
    match cell grid r c with
    | none => initialBoardLoop rest grid
    | some value =>
      if value = '.' then initialBoardLoop rest grid
      else
        let cleared := setCell grid r c '.'
        let isSafe := _isSafe cleared r c value
        let restored := setCell cleared r c value
        if !isSafe then (false, restored) else initialBoardLoop rest restored

/-- The method `_isInitialBoardValid`, with the grid it leaves behind. -/
def _isInitialBoardValid (grid : Grid) : Bool × Grid :=
  initialBoardLoop scanOrder grid

/-- The string `String(num)` of a candidate `num` in `1..9`. -/
def digitChar (num : Nat) : Char :=
  Char.ofNat (48 + num)

/-- The scan of `_solveBacktracking` for the first cell equal to `'.'`. -/
def firstEmpty (grid : Grid) : Option (Nat × Nat) :=
  scanOrder.find? fun rc => cell grid rc.1 rc.2 == some '.'

/-- The loop `for num` of `_solveBacktracking` at the cell `(row, column)`,
over the candidates still to try; `solveRec` stands for the recursive call and
`none` for a call that did not return. -/
def tryCandidates (solveRec : Grid → Option (Bool × Grid)) (row column : Nat) :
    List Nat → Grid → Option (Bool × Grid)
  | [], grid => some (false, grid)
  | num :: rest, grid =>
    let val := digitChar num
    if _isSafe grid row column val then
      match solveRec (setCell grid row column val) with
      | none => none
      | some (true, solved) => some (true, solved)
      | some (false, back) =>
        tryCandidates solveRec row column rest (setCell back row column '.')
    else tryCandidates solveRec row column rest grid

/-- The candidates `1, 2, ..., SIZE` of the loop `for num`. -/
def candidates : List Nat :=
  (List.range SIZE).map fun k => k + 1

/-- The method `_solveBacktracking`, with the grid it leaves behind.  The
recursion is bounded by `fuel`, the number of nested calls allowed; `none`
means the bound was reached. -/
def _solveBacktracking : Nat → Grid → Option (Bool × Grid)
  | 0, _ => none
  | fuel + 1, grid =>
    match firstEmpty grid with
    | none => some (true, grid)
    | some (row, column) =>
      tryCandidates (_solveBacktracking fuel) row column candidates grid

/-- The method `solve` run with a bound on the depth of the search: `none`
when the bound is reached, `some none` for `null`, `some (some s)` for the
solved string. -/
def solveWithin (fuel : Nat) : JSVal → Option (Option (List Char))
  | .str puzzleString =>
    if !(validate (.str puzzleString)).valid then some none
    else
      let grid := _stringToGrid puzzleString
      match _isInitialBoardValid grid with
      | (false, _) => some none
      | (true, grid) =>
        match _solveBacktracking fuel grid with
        | none => none
        | some (true, solved) => some (some (_gridToString solved))
        | some (false, _) => some none
  | _ => some none

/-- The method `solve`: a grid has 81 cells, so 82 nested calls are allowed. -/
def solve (puzzleString : JSVal) : Option (Option (List Char)) :=
  solveWithin (SIZE * SIZE + 1) puzzleString

/-! ## The route `POST /api/check` of `routes/api.js` -/

/-- The JSON body the route answers with: `{ error }`,
`{ valid: false, conflict }` or `{ valid: true }`. -/
inductive Response where
  | error (message : String)
  | conflict (kinds : List String)
  | valid
  deriving DecidableEq, Repr

/-- The test `!field` on a field of the request body.  `none` is a field that
is absent, `null` or `false`; among the fields that are present `.other` is a
value that is neither a string nor a number (`true`, an array, an object). -/
def isFalsy : Option JSVal → Bool
  | none => true
  | some (.str s) => s.isEmpty
  | some (.num .nan) => true
  | some (.num (.int z)) => z == 0
  | some (.num .nonInt) => false
  | some (.other _) => false

/-- The test `/^[A-Ia-i][1-9]$/.test(trimmedCoordinate)`. -/
def isCoordinate (trimmedCoordinate : List Char) : Bool :=
  match trimmedCoordinate with
  | [row, column] =>
    (('A' ≤ row && row ≤ 'I') || ('a' ≤ row && row ≤ 'i')) && ('1' ≤ column && column ≤ '9')
  | _ => false

/-- The test `/^[1-9]$/.test(String(value))`. -/
def isDigitValue (stringVal : List Char) : Bool :=
  match stringVal with
  | [ch] => '1' ≤ ch && ch ≤ '9'
  | _ => false

/-- The comparison `currentValue !== value` of the character read from the
puzzle string (`none` is `undefined`) with the request value. -/
def differsFrom (currentValue : Option Char) (value : JSVal) : Bool :=
  match value with
  | .str v => (currentValue.map fun ch => [ch]) != some v
  | _ => true

/-- The handler of `POST /api/check`, from the fields `puzzle`, `coordinate` and
`value` of the request body to the JSON body of the response. -/
def checkRoute (B : Builtins) (puzzle coordinate value : Option JSVal) : Response :=
  if isFalsy puzzle || isFalsy coordinate || isFalsy value then
    .error "Required field(s) missing"
  else
    match puzzle, coordinate, value with
    | some puzzle, some coordinate, some value =>
      match validate puzzle with
      | .fail error => .error error
      | .ok =>
        match puzzle, coordinate with
        | .str puzzleString, .str coordinateString =>
          let trimmedCoordinate := B.trim coordinateString
          if !isCoordinate trimmedCoordinate then .error "Invalid coordinate"
          else if !isDigitValue (B.toStr value) then .error "Invalid value"
          else
            let row := JSVal.str (trimmedCoordinate.take 1)
            let column := JSVal.str (trimmedCoordinate.drop 1)
            match rowToIndex B row, columnToIndex B column with
            | some rowIndex, some columnIndex =>
              let currentValue := puzzleString[rowIndex * SIZE + columnIndex]?
              let conflicts : List String :=
                if differsFrom currentValue value then
                  (if !checkRowPlacement B puzzle row column value then ["row"] else [])
                    ++ (if !checkColPlacement B puzzle row column value then ["column"] else [])
                    ++ (if !checkRegionPlacement B puzzle row column value then ["region"]
                        else [])
                else []
              if conflicts.length ≠ 0 then .conflict conflicts else .valid
            | _, _ => .error "Invalid coordinate"
        | _, _ => .error "Invalid coordinate"
    | _, _, _ => .error "Required field(s) missing"

/-- The handler of `POST /api/check` with the three check methods it calls
taken as parameters; `checkRoute` is this handler run with the solver's own
`checkRowPlacement`, `checkColPlacement` and `checkRegionPlacement`. -/
def checkRouteWith (B : Builtins)
    (rowCheck colCheck regionCheck : JSVal → JSVal → JSVal → JSVal → Bool)
    (puzzle coordinate value : Option JSVal) : Response :=
  if isFalsy puzzle || isFalsy coordinate || isFalsy value then
    .error "Required field(s) missing"
  else
    match puzzle, coordinate, value with
    | some puzzle, some coordinate, some value =>
      match validate puzzle with
      | .fail error => .error error
      | .ok =>
        match puzzle, coordinate with
        | .str puzzleString, .str coordinateString =>
          let trimmedCoordinate := B.trim coordinateString
          if !isCoordinate trimmedCoordinate then .error "Invalid coordinate"
          else if !isDigitValue (B.toStr value) then .error "Invalid value"
          else
            let row := JSVal.str (trimmedCoordinate.take 1)
            let column := JSVal.str (trimmedCoordinate.drop 1)
            match rowToIndex B row, columnToIndex B column with
            | some rowIndex, some columnIndex =>
              let currentValue := puzzleString[rowIndex * SIZE + columnIndex]?
              let conflicts : List String :=
                if differsFrom currentValue value then
                  (if !rowCheck puzzle row column value then ["row"] else [])
                    ++ (if !colCheck puzzle row column value then ["column"] else [])
                    ++ (if !regionCheck puzzle row column value then ["region"] else [])
                else []
              if conflicts.length ≠ 0 then .conflict conflicts else .valid
            | _, _ => .error "Invalid coordinate"
        | _, _ => .error "Invalid coordinate"
    | _, _, _ => .error "Required field(s) missing"

/-! ## Concrete inputs -/

/-- The white space and line terminator code units `trim` strips. -/
def isTrimmed (ch : Char) : Bool :=
  ch.toNat ∈ [0x9, 0xA, 0xB, 0xC, 0xD, 0x20, 0xA0, 0x1680, 0x2028, 0x2029, 0x202F,
    0x205F, 0x3000, 0xFEFF] || (0x2000 ≤ ch.toNat && ch.toNat ≤ 0x200A)

/-- The value of a string of decimal digits, `none` when the string is empty or
has another character. -/
def decimalValue (s : List Char) : Option Nat :=
  if s.isEmpty || s.any (fun ch => !ch.isDigit) then none
  else some (s.foldl (fun acc ch => 10 * acc + (ch.toNat - 48)) 0)

/-- The built-ins, for evaluating the methods on concrete requests.  They are
as in ECMAScript on these inputs, and only there: `trim` on every string,
`toUpperCase` on strings of ASCII characters, `Number` on a single ASCII letter
and on one to fifteen decimal digits, `String` on `NaN` and on the integers
below `10 ^ 21` in absolute value. -/
def asciiBuiltins : Builtins where
  trim s := ((s.dropWhile isTrimmed).reverse.dropWhile isTrimmed).reverse
  toUpperCase s := s.map fun ch => if 'a' ≤ ch ∧ ch ≤ 'z' then Char.ofNat (ch.toNat - 32) else ch
  toNumber s :=
    match decimalValue s with
    | some n => .int n
    | none => .nan
  numberToString
    | .nan => "NaN".toList
    | .int z => (toString z).toList
    | .nonInt => "Infinity".toList

def fixturePuzzle : List Char :=
  "1.5..2.84..63.12.7.2..5.....9..1....8.2.3674.3.7.2..9.47...8..1..16....926914.37.".toList

/-! ## Notions used to state the properties -/

/-- A grid of nine rows of nine cells. -/
def Is9x9 (g : Grid) : Prop :=
  g.length = 9 ∧ ∀ cells ∈ g, cells.length = 9

/-- Two cells share a row, a column or a 3x3 block. -/
def Related (r c r' c' : Nat) : Prop :=
  r' = r ∨ c' = c ∨ (r' / 3 = r / 3 ∧ c' / 3 = c / 3)

/-- A 9x9 grid whose cells all hold `'1'..'9'` or `'.'`. -/
def GridOK (g : Grid) : Prop :=
  Is9x9 g ∧ ∀ r c, r < 9 → c < 9 → ∃ ch, cell g r c = some ch ∧ isPuzzleChar ch = true

/-- No value other than `'.'` sits in two different cells that share a row, a
column or a block. -/
def Consistent (g : Grid) : Prop :=
  ∀ r c r' c' v, r < 9 → c < 9 → r' < 9 → c' < 9 → (r, c) ≠ (r', c') →
    Related r c r' c' → v ≠ '.' → cell g r c = some v → cell g r' c' ≠ some v

/-- Grid `h` keeps every filled cell of `g`. -/
def Extends (g h : Grid) : Prop :=
  ∀ r c v, r < 9 → c < 9 → v ≠ '.' → cell g r c = some v → cell h r c = some v

/-- No cell of the grid is `'.'`. -/
def Full (g : Grid) : Prop :=
  ∀ r c, r < 9 → c < 9 → cell g r c ≠ some '.'

/-- Grid `h` is a solved grid that keeps the filled cells of `g`. -/
def SolutionOf (g h : Grid) : Prop :=
  GridOK h ∧ Full h ∧ Consistent h ∧ Extends g h

/-- The number of cells equal to `'.'`. -/
def emptyCount (g : Grid) : Nat :=
  scanOrder.countP fun rc => cell g rc.1 rc.2 == some '.'

/-- Character-by-character comparison `s ≤ t` of two strings in row-major
order: they are equal, or they agree up to an index where `s` has the smaller
character. -/
def LexLE (s t : List Char) : Prop :=
  s = t ∨ ∃ i : Nat, (∀ j : Nat, j < i → s[j]? = t[j]?) ∧
    ∃ x y, s[i]? = some x ∧ t[i]? = some y ∧ x < y

/-- What a call of `_solveBacktracking` on grid `g` guarantees about its result
and the grid it leaves behind. -/
def SolveSpec (g : Grid) (res : Bool × Grid) : Prop :=
  (res.1 = false → res.2 = g ∧ ∀ h, ¬ SolutionOf g h) ∧
  (res.1 = true → GridOK res.2 ∧ Full res.2 ∧ Extends g res.2 ∧
    (Consistent g → Consistent res.2) ∧
    ∀ h, SolutionOf g h → LexLE (_gridToString res.2) (_gridToString h))

/-- The nine cells of row `r` of a string read row-major. -/
def rowCells (s : List Char) (r : Nat) : List (Option Char) :=
  (List.range 9).map fun c => s[r * 9 + c]?

/-- The nine cells of column `c` of a string read row-major. -/
def colCells (s : List Char) (c : Nat) : List (Option Char) :=
  (List.range 9).map fun r => s[r * 9 + c]?

/-- The nine cells of the 3x3 region number `b` (regions counted row-major,
region `b` has its top-left corner at row `b / 3 * 3`, column `b % 3 * 3`). -/
def regionCells (s : List Char) (b : Nat) : List (Option Char) :=
  (List.range 9).map fun k => s[(b / 3 * 3 + k / 3) * 9 + (b % 3 * 3 + k % 3)]?

/-- String `t` is a completion of the puzzle string `p`: 81 digits `'1'..'9'`
that agree with `p` wherever `p` is not `'.'` and repeat no digit in any row,
column or 3x3 region. -/
def Completion (p t : List Char) : Prop :=
  t.length = 81 ∧ (∀ ch ∈ t, '1' ≤ ch ∧ ch ≤ '9') ∧
  (∀ i, i < p.length → p[i]? ≠ some '.' → t[i]? = p[i]?) ∧
  (∀ k, k < 9 → (rowCells t k).Nodup ∧ (colCells t k).Nodup ∧ (regionCells t k).Nodup)

instance (p t : List Char) : Decidable (Completion p t) := by
  unfold Completion
  infer_instance

/-- A placement that is forced: the cell `(r, c)` is empty and `v` is the only
candidate digit that `_isSafe` accepts there. -/
def forcedStep (g : Grid) (r c : Nat) (v : Char) : Bool :=
  decide (r < 9) && decide (c < 9) && cell g r c == some '.' && isPuzzleChar v &&
    candidates.all fun n => digitChar n == v || !_isSafe g r c (digitChar n)

/-- A run of forced placements, `none` when one of them is not forced. -/
def forcedChain : List (Nat × Nat × Char) → Grid → Option Grid
  | [], g => some g
  | (r, c, v) :: rest, g =>
    if forcedStep g r c v then forcedChain rest (setCell g r c v) else none

/-- The solution of the fixture puzzle. -/
def fixtureSolution : List Char :=
  "135762984946381257728459613694517832812936745357824196473298561581673429269145378".toList

/-- Forced placements that fill the fixture puzzle. -/
def fixtureSteps : List (Nat × Nat × Char) :=
  [(0, 1, '3'), (1, 0, '9'), (1, 4, '8'), (1, 7, '5'), (2, 0, '7'), (3, 2, '4'),
   (4, 8, '5'), (6, 2, '3'), (6, 4, '9'), (7, 0, '5'), (7, 1, '8'), (7, 4, '7'),
   (7, 5, '3'), (7, 6, '4'), (7, 7, '2'), (8, 5, '5'), (8, 8, '8'), (0, 4, '6'),
   (0, 6, '9'), (1, 1, '4'), (2, 2, '8'), (3, 0, '6'), (3, 5, '7'), (3, 6, '8'),
   (3, 7, '3'), (3, 8, '2'), (4, 1, '1'), (4, 3, '9'), (5, 1, '5'), (5, 5, '4'),
   (5, 8, '6'), (6, 3, '2'), (6, 7, '6'), (0, 3, '7'), (2, 3, '4'), (2, 5, '9'),
   (2, 7, '1'), (2, 8, '3'), (3, 3, '5'), (5, 3, '8'), (5, 6, '1'), (6, 6, '5'),
   (2, 6, '6')]

/-- The fixture solution with the cells A1, A3, H1 and H3 emptied: a puzzle with
two completions. -/
def twoPuzzle : List Char :=
  ".3.762984946381257728459613694517832812936745357824196473298561.8.673429269145378".toList

/-- The completion of `twoPuzzle` other than the fixture solution. -/
def twoOther : List Char :=
  "531762984946381257728459613694517832812936745357824196473298561185673429269145378".toList

/-- The board with all 81 cells equal to `'9'`. -/
def allNines : List Char :=
  List.replicate 81 '9'

/-- The string of the unit test "Invalid puzzle strings fail the solver". -/
def unitTestNines : List Char :=
  "9.9.9.9.9.9.9.9.9.9.9.9.9.9.9.9.9.9.9.9.9.9.9.9.9.9.9.9.9.9.9.9.9.9.9.9.9.9.9.9.9.9.9.9.9.9.9.9.9.9.9.9.9.9.9.9.9.9.9.9.9.9.9.9.9.9.9.9.9.9.9.9.9.9.9.9.9.9.9.9.9".toList

/-- A recursive call that is only answered on grids with exactly `k` empty
cells, and does not return on any other grid. -/
def onGridsWith (k : Nat) (solveRec : Grid → Option (Bool × Grid)) :
    Grid → Option (Bool × Grid) :=
  fun grid => if emptyCount grid = k then solveRec grid else none

/-! ## The host built-ins as ECMAScript defines them -/

/-- The method `String.prototype.trim`: white space and line terminators are
stripped from both ends. -/
def trimSpaces (s : List Char) : List Char :=
  ((s.dropWhile isTrimmed).reverse.dropWhile isTrimmed).reverse

/-- The upper case of an ASCII character. -/
def asciiUpper (ch : Char) : Char :=
  if 'a' ≤ ch ∧ ch ≤ 'z' then Char.ofNat (ch.toNat - 32) else ch

/-- The dotless i, U+0131, a lower-case letter whose upper case in Unicode is
the ASCII letter `I`. -/
def dotlessI : Char :=
  Char.ofNat 0x131

/-- The facts of ECMAScript about the built-ins that the properties of
coordinates rest on.  `trim` strips white space; `toUpperCase` maps `a..z` to
`A..Z` and leaves every other ASCII character, and maps the dotless i to `I`;
`Number` gives `NaN` on a single ASCII letter, reads a string of decimal
digits, with or without a minus sign, as its value when that is below `2 ^ 53`,
and as a number of at least that magnitude otherwise. -/
structure Builtins.Conforms (B : Builtins) : Prop where
  trim_eq : ∀ s, B.trim s = trimSpaces s
  upper_ascii : ∀ s, (∀ ch ∈ s, ch.toNat < 128) → B.toUpperCase s = s.map asciiUpper
  upper_dotless : B.toUpperCase [dotlessI] = ['I']
  number_letter : ∀ ch, ch.isAlpha = true → B.toNumber [ch] = .nan
  number_digits : ∀ s n, decimalValue s = some n → n < 2 ^ 53 → B.toNumber s = .int n
  number_large : ∀ s n, decimalValue s = some n → 2 ^ 53 ≤ n →
    B.toNumber s = .nonInt ∨ ∃ z : Int, B.toNumber s = .int z ∧ 2 ^ 53 ≤ z
  number_minus : ∀ s n, decimalValue s = some n → n < 2 ^ 53 →
    B.toNumber ('-' :: s) = .int (-(n : Int))
  number_minus_large : ∀ s n, decimalValue s = some n → 2 ^ 53 ≤ n →
    B.toNumber ('-' :: s) = .nonInt ∨ ∃ z : Int, B.toNumber ('-' :: s) = .int z ∧ z ≤ -(2 ^ 53)

/-- Built-ins that conform, for evaluating the methods on concrete requests.
Outside the inputs named in `Builtins.Conforms` they are not meant to agree
with ECMAScript. -/
def hostBuiltins : Builtins where
  trim := trimSpaces
  toUpperCase s := s.map fun ch => if ch = dotlessI then 'I' else asciiUpper ch
  toNumber s :=
    match decimalValue s, decimalValue s.tail with
    | some n, _ => .int n
    | none, some n => if s.head? = some '-' then .int (-(n : Int)) else .nan
    | none, none => .nan
  numberToString := asciiBuiltins.numberToString

/-- The index a numeric coordinate `n` stands for: `n - 1` for `1..9`, `0` for
`0`, none for any other integer. -/
def indexOfInteger (n : Int) : Option Nat :=
  if 1 ≤ n ∧ n ≤ 9 then some (n - 1).toNat else if n = 0 then some 0 else none

/-- String `s` writes the integer `n` in decimal digits, with a minus sign when
`n` is negative (or zero). -/
def IsDecimalOf (s : List Char) (n : Int) : Prop :=
  (0 ≤ n ∧ decimalValue s = some n.toNat) ∨
    (n ≤ 0 ∧ ∃ digits, s = '-' :: digits ∧ decimalValue digits = some (-n).toNat)

/-- The conflict kinds, in the fixed order row, column, region, of the checks
that returned `false`. -/
def conflictKinds (rowOk colOk regionOk : Bool) : List String :=
  (if rowOk then [] else ["row"]) ++ (if colOk then [] else ["column"])
    ++ (if regionOk then [] else ["region"])

/-- A puzzle on which the search places a digit and then fails: the cell A1
accepts `1` and `2`, and either way the cell A2 accepts nothing, because the
row holds `3..9` and its column holds `1` and `2`. -/
def deadEndPuzzle : List Char :=
  "..3456789...................1........2...........................................".toList

/-! ## Values without a string conversion -/

/-- Any value a caller can pass as `value`: one whose conversion `String(value)`
returns, or an object for which it throws a `TypeError`, such as
`{ toString: 1 }` or `Object.create(null)`. -/
inductive AnyVal where
  | plain (value : JSVal)
  | noString
  deriving DecidableEq, Repr

/-- What a call does: it returns a result or throws a `TypeError`. -/
inductive Outcome (α : Type) where
  | returned (result : α)
  | typeError
  deriving DecidableEq, Repr

/-- The method `_normalizeValue` on any value: its first step is
`String(value)`, which throws on a value without a string conversion. -/
def _normalizeValueOnAny (B : Builtins) : AnyVal → Outcome (Option Char)
  | .plain value => .returned (_normalizeValue B value)
  | .noString => .typeError

/-- The method `_normalizeInputs` on any value.  It returns `null` when
`validate` fails; otherwise it normalises the row and the column, which never
throws, and then calls `_normalizeValue(value)`, before it looks at any of the
three results.  Nothing catches what `_normalizeValue` throws. -/
def _normalizeInputsOnAny (B : Builtins) (puzzleString row column : JSVal) (value : AnyVal) :
    Outcome (Option Normalized) :=
  if !(validate puzzleString).valid then .returned none
  else
    match value, _normalizeValueOnAny B value with
    | .plain v, .returned _ => .returned (_normalizeInputs B puzzleString row column v)
    | _, _ => .typeError

/-- The method `checkRowPlacement` on any value: what `_normalizeInputs` throws
goes to the caller; otherwise the method runs as `checkRowPlacement` above. -/
def checkRowPlacementOnAny (B : Builtins) (puzzleString row column : JSVal) (value : AnyVal) :
    Outcome Bool :=
  match value, _normalizeInputsOnAny B puzzleString row column value with
  | _, .typeError => .typeError
  | .plain v, .returned _ => .returned (checkRowPlacement B puzzleString row column v)
  | .noString, .returned _ => .returned false

/-- The method `checkColPlacement` on any value. -/
def checkColPlacementOnAny (B : Builtins) (puzzleString row column : JSVal) (value : AnyVal) :
    Outcome Bool :=
  match value, _normalizeInputsOnAny B puzzleString row column value with
  | _, .typeError => .typeError
  | .plain v, .returned _ => .returned (checkColPlacement B puzzleString row column v)
  | .noString, .returned _ => .returned false

/-- The method `checkRegionPlacement` on any value. -/
def checkRegionPlacementOnAny (B : Builtins) (puzzleString row column : JSVal)
    (value : AnyVal) : Outcome Bool :=
  match value, _normalizeInputsOnAny B puzzleString row column value with
  | _, .typeError => .typeError
  | .plain v, .returned _ => .returned (checkRegionPlacement B puzzleString row column v)
  | .noString, .returned _ => .returned false

/-! # Theorems -/

/-! ## validate: the accepted strings and the two errors -/

theorem hasInvalidChar_eq_false (s : List Char) :
    hasInvalidChar s = false ↔ ∀ ch ∈ s, ('1' ≤ ch ∧ ch ≤ '9') ∨ ch = '.' := by
  simp only [hasInvalidChar, isPuzzleChar, List.any_eq_false]
  refine forall₂_congr fun ch _ => ?_
  by_cases h1 : '1' ≤ ch <;> by_cases h9 : ch ≤ '9' <;> by_cases hd : ch = '.' <;>
    simp [h1, h9, hd]

theorem validate_eq_ok (s : List Char) :
    validate (.str s) = .ok ↔
      s.length = 81 ∧ ∀ ch ∈ s, ('1' ≤ ch ∧ ch ≤ '9') ∨ ch = '.' := by
  rw [← hasInvalidChar_eq_false]
  unfold validate
  by_cases hlen : s.length = 81
  · cases hbad : hasInvalidChar s <;> simp [SIZE, hlen, hbad]
  · simp [SIZE, hlen]

/-- C5: `validate` answers `{ valid: true }` on a string exactly when the
string has 81 characters, each of them one of `'1'..'9'` or `'.'`. -/
theorem validate_ok_iff (s : List Char) :
    validate (.str s) = .ok ↔
      s.length = 81 ∧ ∀ ch ∈ s, ('1' ≤ ch ∧ ch ≤ '9') ∨ ch = '.' :=
  validate_eq_ok s

/-- C6: a string whose length is not 81 gets the length error, whatever its
characters are. -/
theorem validate_length_error (s : List Char) (hlen : s.length ≠ 81) :
    validate (.str s) = .fail "Expected puzzle to be 81 characters long" := by
  simp [validate, SIZE, hlen]

theorem validate_length_error_witness :
    "1.5..2.84..63.12.7.2..5.....9..1....X.2.3674.3.7.2..9.47...8..1..16....926914.37".toList.length ≠ 81
    ∧ validate (.str "1.5..2.84..63.12.7.2..5.....9..1....X.2.3674.3.7.2..9.47...8..1..16....926914.37".toList)
      = .fail "Expected puzzle to be 81 characters long" :=
  ⟨by decide, validate_length_error _ (by decide)⟩

/-- C7: a string of exactly 81 characters with a character other than
`'1'..'9'` and `'.'` gets the character error. -/
theorem validate_character_error (s : List Char) (hlen : s.length = 81)
    (hbad : ∃ ch ∈ s, ¬ (('1' ≤ ch ∧ ch ≤ '9') ∨ ch = '.')) :
    validate (.str s) = .fail "Invalid characters in puzzle" := by
  have h : hasInvalidChar s = true := by
    cases hv : hasInvalidChar s
    · obtain ⟨ch, hmem, hch⟩ := hbad
      exact absurd ((hasInvalidChar_eq_false s).1 hv ch hmem) hch
    · rfl
  simp [validate, SIZE, hlen, h]

theorem validate_character_error_witness :
    "1.5..2.84..63.12.7.2..5.....9..1....X.2.3674.3.7.2..9.47...8..1..16....926914.37.".toList.length = 81
    ∧ validate (.str "1.5..2.84..63.12.7.2..5.....9..1....X.2.3674.3.7.2..9.47...8..1..16....926914.37.".toList)
      = .fail "Invalid characters in puzzle" :=
  ⟨by decide, validate_character_error _ (by decide) ⟨'X', by decide, by decide⟩⟩

/-! ## Cells of a grid -/

theorem cell_stringToGrid (s : List Char) (r c : Nat) (hr : r < 9) (hc : c < 9) :
    cell (_stringToGrid s) r c = s[r * 9 + c]? := by
  simp [cell, _stringToGrid, SIZE, hr, List.getElem?_map, List.getElem?_range hr,
    List.getElem?_take, hc, List.getElem?_drop]
  intro h; omega
  
theorem cell_setCell (g : Grid) (r c r' c' : Nat) (v : Char) :
    cell (setCell g r c v) r' c' =
      if r' = r ∧ c' = c ∧ (cell g r c).isSome then some v else cell g r' c' := by
  unfold setCell cell
  cases hrow : g[r]? with
  | none => simp [hrow]
  | some cells =>
    simp only [List.getElem?_set]
    by_cases h : r = r'
    · subst h
      have hlt : r < g.length := by
        by_contra hge
        simp [List.getElem?_eq_none (Nat.le_of_not_lt hge)] at hrow
      simp [hlt, hrow, List.getElem?_set]
      by_cases h2 : c = c'
      · subst h2
        by_cases h3 : c < cells.length
        · simp [h3]
        · simp [h3, List.getElem?_eq_none (Nat.le_of_not_lt h3)]
      · have h2' : ¬ c' = c := fun h => h2 h.symm
        simp [h2, h2']
    · have h' : ¬ r' = r := fun e => h e.symm
      simp [h, h']

theorem normalizeNumber_lt (x : JSVal) (k : Nat) (h : normalizeNumber x = some k) : k < 9 := by
  unfold normalizeNumber at h
  split at h
  · simp only [SIZE] at h
    split_ifs at h with h1 h2
    · simp at h; omega
    · simp at h; omega
  · simp at h

theorem normalizeRow_lt (B : Builtins) (row : JSVal) (r : Nat)
    (h : _normalizeRow B row = some r) : r < 9 := by
  unfold _normalizeRow at h
  split at h
  · simp only at h
    split_ifs at h
    split at h
    · rename_i index hidx
      split at hidx
      · split_ifs at hidx with hcode
        simp at hidx h; omega
      · simp at hidx
    · split at h
      · simp at h
      · exact normalizeNumber_lt _ _ h
  · exact normalizeNumber_lt _ _ h

theorem normalizeColumn_lt (B : Builtins) (column : JSVal) (c : Nat)
    (h : _normalizeColumn B column = some c) : c < 9 := by
  unfold _normalizeColumn at h
  split at h
  · simp only at h
    split_ifs at h
    split at h
    · simp at h
    · exact normalizeNumber_lt _ _ h
  · exact normalizeNumber_lt _ _ h


theorem normalizeInputs_eq (B : Builtins) (p : List Char) (row column value : JSVal)
    (r c : Nat) (v : Char) (hp : validate (.str p) = .ok)
    (hr : _normalizeRow B row = some r) (hc : _normalizeColumn B column = some c)
    (hv : _normalizeValue B value = some v) :
    _normalizeInputs B (.str p) row column value =
      some ⟨_stringToGrid p, r, c, v, cell (_stringToGrid p) r c⟩ := by
  simp [_normalizeInputs, hp, hr, hc, hv, Validation.valid]

theorem ite_false_true_iff (b : Bool) : (if b then false else true) = true ↔ b = false := by
  cases b <;> simp

/-- C8: on a valid puzzle string `p`, with the row, column and value inputs
normalising to `r`, `c` (both in `0..8`) and the digit `v`,
`checkRowPlacement` returns `true` exactly when no cell `p[r*9 + c']` of row
`r` with `c' ≠ c` equals `v`. -/
theorem checkRowPlacement_iff (B : Builtins) (p : List Char) (row column value : JSVal)
    (r c : Nat) (v : Char) (hp : validate (.str p) = .ok)
    (hr : _normalizeRow B row = some r) (hc : _normalizeColumn B column = some c)
    (hv : _normalizeValue B value = some v) :
    r < 9 ∧ c < 9 ∧
    (checkRowPlacement B (.str p) row column value = true ↔
      ∀ c' < 9, c' ≠ c → p[r * 9 + c']? ≠ some v) := by
  have hr9 := normalizeRow_lt B row r hr
  have hc9 := normalizeColumn_lt B column c hc
  refine ⟨hr9, hc9, ?_⟩
  simp only [checkRowPlacement, normalizeInputs_eq B p row column value r c v hp hr hc hv]
  rw [ite_false_true_iff]
  simp only [SIZE, List.any_eq_false, List.mem_range]
  refine forall₂_congr fun c' hc' => ?_
  by_cases hne : c' = c
  · simp [hne]
  · simp [hne, cell_setCell, cell_stringToGrid p r c' hr9 hc']


theorem checkRowPlacement_iff_witness :
    validate (.str fixturePuzzle) = .ok
    ∧ _normalizeRow asciiBuiltins (.str ['A']) = some 0
    ∧ _normalizeColumn asciiBuiltins (.str ['2']) = some 1
    ∧ _normalizeValue asciiBuiltins (.str ['3']) = some '3'
    ∧ (0 < 9 ∧ 1 < 9 ∧
      (checkRowPlacement asciiBuiltins (.str fixturePuzzle) (.str ['A']) (.str ['2'])
          (.str ['3']) = true ↔
        ∀ c' < 9, c' ≠ 1 → fixturePuzzle[0 * 9 + c']? ≠ some '3')) :=
  ⟨by decide, by decide, by decide, by decide,
    checkRowPlacement_iff asciiBuiltins fixturePuzzle (.str ['A']) (.str ['2']) (.str ['3'])
      0 1 '3' (by decide) (by decide) (by decide) (by decide)⟩

/-- C9: on a valid puzzle string `p`, with the row, column and value inputs
normalising to `r`, `c` (both in `0..8`) and the digit `v`,
`checkColPlacement` returns `true` exactly when no cell `p[r'*9 + c]` of
column `c` with `r' ≠ r` equals `v`. -/
theorem checkColPlacement_iff (B : Builtins) (p : List Char) (row column value : JSVal)
    (r c : Nat) (v : Char) (hp : validate (.str p) = .ok)
    (hr : _normalizeRow B row = some r) (hc : _normalizeColumn B column = some c)
    (hv : _normalizeValue B value = some v) :
    r < 9 ∧ c < 9 ∧
    (checkColPlacement B (.str p) row column value = true ↔
      ∀ r' < 9, r' ≠ r → p[r' * 9 + c]? ≠ some v) := by
  have hr9 := normalizeRow_lt B row r hr
  have hc9 := normalizeColumn_lt B column c hc
  refine ⟨hr9, hc9, ?_⟩
  simp only [checkColPlacement, normalizeInputs_eq B p row column value r c v hp hr hc hv]
  rw [ite_false_true_iff]
  simp only [SIZE, List.any_eq_false, List.mem_range]
  refine forall₂_congr fun r' hr' => ?_
  by_cases hne : r' = r
  · simp [hne]
  · simp [hne, cell_setCell, cell_stringToGrid p r' c hr' hc9]

theorem checkColPlacement_iff_witness :
    validate (.str fixturePuzzle) = .ok
    ∧ _normalizeRow asciiBuiltins (.str ['B']) = some 1
    ∧ _normalizeColumn asciiBuiltins (.str ['1']) = some 0
    ∧ _normalizeValue asciiBuiltins (.str ['6']) = some '6'
    ∧ (1 < 9 ∧ 0 < 9 ∧
      (checkColPlacement asciiBuiltins (.str fixturePuzzle) (.str ['B']) (.str ['1'])
          (.str ['6']) = true ↔
        ∀ r' < 9, r' ≠ 1 → fixturePuzzle[r' * 9 + 0]? ≠ some '6')) :=
  ⟨by decide, by decide, by decide, by decide,
    checkColPlacement_iff asciiBuiltins fixturePuzzle (.str ['B']) (.str ['1']) (.str ['6'])
      1 0 '6' (by decide) (by decide) (by decide) (by decide)⟩

theorem any_range_eq_false (n : Nat) (f : Nat → Bool) :
    (List.range n).any f = false ↔ ∀ k < n, f k = false := by
  simp [List.any_eq_false]

theorem any_any_range_eq_false (n m : Nat) (f : Nat → Nat → Bool) :
    ((List.range n).any fun r => (List.range m).any fun c => f r c) = false ↔
      ∀ r < n, ∀ c < m, f r c = false := by
  rw [any_range_eq_false]
  exact forall₂_congr fun r _ => any_range_eq_false m (f r)

/-- C10: on a valid puzzle string `p`, with the row, column and value inputs
normalising to `r`, `c` (both in `0..8`) and the digit `v`,
`checkRegionPlacement` returns `true` exactly when no cell `(r', c')` other than
`(r, c)` of the 3x3 block with top-left corner `(r/3*3, c/3*3)` holds `v`; the
block lies inside the grid and contains `(r, c)`. -/
theorem checkRegionPlacement_iff (B : Builtins) (p : List Char) (row column value : JSVal)
    (r c : Nat) (v : Char) (hp : validate (.str p) = .ok)
    (hr : _normalizeRow B row = some r) (hc : _normalizeColumn B column = some c)
    (hv : _normalizeValue B value = some v) :
    r < 9 ∧ c < 9 ∧
    (checkRegionPlacement B (.str p) row column value = true ↔
      ∀ r' c', r / 3 * 3 ≤ r' → r' < r / 3 * 3 + 3 → c / 3 * 3 ≤ c' → c' < c / 3 * 3 + 3 →
        (r', c') ≠ (r, c) → p[r' * 9 + c']? ≠ some v) ∧
    (r / 3 * 3 + 3 ≤ 9 ∧ c / 3 * 3 + 3 ≤ 9) ∧
    (r / 3 * 3 ≤ r ∧ r < r / 3 * 3 + 3 ∧ c / 3 * 3 ≤ c ∧ c < c / 3 * 3 + 3) := by
  have hr9 := normalizeRow_lt B row r hr
  have hc9 := normalizeColumn_lt B column c hc
  refine ⟨hr9, hc9, ?_, ⟨by omega, by omega⟩, by omega, by omega, by omega, by omega⟩
  simp only [checkRegionPlacement, normalizeInputs_eq B p row column value r c v hp hr hc hv]
  rw [ite_false_true_iff]
  rw [any_any_range_eq_false]
  simp only [SUBGRID]
  constructor
  · intro h r' c' h1 h2 h3 h4 hne
    have := h (r' - r / 3 * 3) (by omega) (c' - c / 3 * 3) (by omega)
    have e1 : r / 3 * 3 + (r' - r / 3 * 3) = r' := by omega
    have e2 : c / 3 * 3 + (c' - c / 3 * 3) = c' := by omega
    rw [e1, e2] at this
    have hne' : ¬ (r' = r ∧ c' = c) := fun h => hne (by rw [h.1, h.2])
    have hor : (r' != r || c' != c) = true := by
      by_cases hrr : r' = r
      · have : c' ≠ c := fun hcc => hne' ⟨hrr, hcc⟩
        simp [this]
      · simp [hrr]
    rw [cell_setCell, hor, if_neg (fun h => hne' ⟨h.1, h.2.1⟩),
      cell_stringToGrid p r' c' (by omega) (by omega)] at this
    simpa using this
  · intro h dr hdr dc hdc
    by_cases heq : r / 3 * 3 + dr = r ∧ c / 3 * 3 + dc = c
    · simp [heq.1, heq.2]
    · have hne : (r / 3 * 3 + dr, c / 3 * 3 + dc) ≠ (r, c) := by
        intro e; simp only [Prod.mk.injEq] at e; exact heq e
      have := h _ _ (by omega) (by omega) (by omega) (by omega) hne
      rw [cell_setCell, if_neg (fun h => heq ⟨h.1, h.2.1⟩),
        cell_stringToGrid p _ _ (by omega) (by omega)]
      simp [this]

theorem checkRegionPlacement_iff_witness :
    validate (.str fixturePuzzle) = .ok
    ∧ _normalizeRow asciiBuiltins (.str ['B']) = some 1
    ∧ _normalizeColumn asciiBuiltins (.str ['2']) = some 1
    ∧ _normalizeValue asciiBuiltins (.str ['4']) = some '4'
    ∧ (1 < 9 ∧ 1 < 9 ∧
      (checkRegionPlacement asciiBuiltins (.str fixturePuzzle) (.str ['B']) (.str ['2'])
          (.str ['4']) = true ↔
        ∀ r' c', 1 / 3 * 3 ≤ r' → r' < 1 / 3 * 3 + 3 → 1 / 3 * 3 ≤ c' → c' < 1 / 3 * 3 + 3 →
          (r', c') ≠ (1, 1) → fixturePuzzle[r' * 9 + c']? ≠ some '4') ∧
      (1 / 3 * 3 + 3 ≤ 9 ∧ 1 / 3 * 3 + 3 ≤ 9) ∧
      (1 / 3 * 3 ≤ 1 ∧ 1 < 1 / 3 * 3 + 3 ∧ 1 / 3 * 3 ≤ 1 ∧ 1 < 1 / 3 * 3 + 3)) :=
  ⟨by decide, by decide, by decide, by decide,
    checkRegionPlacement_iff asciiBuiltins fixturePuzzle (.str ['B']) (.str ['2']) (.str ['4'])
      1 1 '4' (by decide) (by decide) (by decide) (by decide)⟩

/-! ## Grids: shape, reads after writes -/

theorem cell_isSome_of_Is9x9 {g : Grid} (hg : Is9x9 g) {r c : Nat} (hr : r < 9) (hc : c < 9) :
    (cell g r c).isSome = true := by
  unfold cell
  have hlt : r < g.length := by rw [hg.1]; exact hr
  rw [List.getElem?_eq_getElem hlt]
  have hlen := hg.2 g[r] (List.getElem_mem hlt)
  have hc' : c < g[r].length := by rw [hlen]; exact hc
  simp [List.getElem?_eq_getElem hc']

theorem Is9x9_setCell {g : Grid} (hg : Is9x9 g) (r c : Nat) (v : Char) :
    Is9x9 (setCell g r c v) := by
  unfold setCell
  cases hrow : g[r]? with
  | none => simpa using hg
  | some cells =>
    refine ⟨by simpa using hg.1, ?_⟩
    intro cells' hmem
    rcases List.mem_or_eq_of_mem_set hmem with h | h
    · exact hg.2 _ h
    · rw [h, List.length_set]
      exact hg.2 _ (List.getElem?_mem hrow)

theorem cell_setCell_same {g : Grid} (hg : Is9x9 g) {r c : Nat} (hr : r < 9) (hc : c < 9)
    (v : Char) : cell (setCell g r c v) r c = some v := by
  rw [cell_setCell]; simp [cell_isSome_of_Is9x9 hg hr hc]

theorem cell_setCell_ne (g : Grid) {r c r' c' : Nat} (h : (r', c') ≠ (r, c)) (v : Char) :
    cell (setCell g r c v) r' c' = cell g r' c' := by
  rw [cell_setCell, if_neg]
  rintro ⟨h1, h2, -⟩
  exact h (by rw [h1, h2])

theorem setCell_setCell (g : Grid) (r c : Nat) (v w : Char) :
    setCell (setCell g r c v) r c w = setCell g r c w := by
  unfold setCell
  cases hrow : g[r]? with
  | none => simp [hrow]
  | some cells =>
    have hlt : r < g.length := by
      by_contra hge
      simp [List.getElem?_eq_none (Nat.le_of_not_lt hge)] at hrow
    simp [List.getElem?_set, hlt, List.set_set]

theorem setCell_self (g : Grid) (r c : Nat) (v : Char) (h : cell g r c = some v) :
    setCell g r c v = g := by
  unfold cell at h
  unfold setCell
  cases hrow : g[r]? with
  | none => rfl
  | some cells =>
    rw [hrow] at h
    simp only at h
    have hcells : cells.set c v = cells := by
      apply List.ext_getElem?
      intro i
      rw [List.getElem?_set]
      split_ifs with h1 h2
      · rw [← h1, h]
      · rw [List.getElem?_eq_none (Nat.le_of_not_lt h2)] at h; simp at h
      · rfl
    simp only [hcells]
    apply List.ext_getElem?
    intro i
    rw [List.getElem?_set]
    split_ifs with h1 h2
    · rw [← h1, hrow]
    · rw [← h1, List.getElem?_eq_none (Nat.le_of_not_lt h2)]
    · rfl

/-! ## The safety test -/

theorem isSafe_iff (g : Grid) (r c : Nat) (v : Char) (hr : r < 9) (hc : c < 9) :
    _isSafe g r c v = true ↔
      ∀ r' c', r' < 9 → c' < 9 → Related r c r' c' → cell g r' c' ≠ some v := by
  simp only [_isSafe, SIZE, SUBGRID]
  split_ifs with hrow hcol hblk
  · simp only [Bool.false_eq_true, false_iff]
    intro h
    simp only [List.any_eq_true, List.mem_range] at hrow
    obtain ⟨c', hc', hv⟩ := hrow
    exact h r c' hr hc' (Or.inl rfl) (by simpa using hv)
  · simp only [Bool.false_eq_true, false_iff]
    intro h
    simp only [List.any_eq_true, List.mem_range] at hcol
    obtain ⟨r', hr', hv⟩ := hcol
    exact h r' c hr' hc (Or.inr (Or.inl rfl)) (by simpa using hv)
  · simp only [Bool.false_eq_true, false_iff]
    intro h
    simp only [List.any_eq_true, List.mem_range] at hblk
    obtain ⟨dr, hdr, dc, hdc, hv⟩ := hblk
    exact h (r / 3 * 3 + dr) (c / 3 * 3 + dc) (by omega) (by omega)
      (Or.inr (Or.inr ⟨by omega, by omega⟩)) (by simpa using hv)
  · simp only [true_iff]
    rw [Bool.not_eq_true, any_range_eq_false] at hrow hcol
    rw [Bool.not_eq_true, any_any_range_eq_false] at hblk
    intro r' c' hr' hc' hrel
    rcases hrel with h | h | ⟨h1, h2⟩
    · subst h; simpa using hrow c' hc'
    · subst h; simpa using hcol r' hr'
    · have := hblk (r' - r / 3 * 3) (by omega) (c' - c / 3 * 3) (by omega)
      have e1 : r / 3 * 3 + (r' - r / 3 * 3) = r' := by omega
      have e2 : c / 3 * 3 + (c' - c / 3 * 3) = c' := by omega
      rw [e1, e2] at this
      simpa using this

theorem Related_symm {r c r' c' : Nat} (h : Related r c r' c') : Related r' c' r c := by
  rcases h with h | h | ⟨h1, h2⟩
  · exact Or.inl h.symm
  · exact Or.inr (Or.inl h.symm)
  · exact Or.inr (Or.inr ⟨h1.symm, h2.symm⟩)

/-! ## The scan order -/

theorem scanOrder_eq : scanOrder = (List.range 81).map fun i => (i / 9, i % 9) := by
  decide

theorem mem_scanOrder (r c : Nat) : (r, c) ∈ scanOrder ↔ r < 9 ∧ c < 9 := by
  simp only [scanOrder, SIZE, List.mem_flatMap, List.mem_map, List.mem_range, Prod.mk.injEq]
  constructor
  · rintro ⟨a, ha, b, hb, rfl, rfl⟩; exact ⟨ha, hb⟩
  · rintro ⟨h1, h2⟩; exact ⟨r, h1, c, h2, rfl, rfl⟩

theorem scanOrder_nodup : scanOrder.Nodup := by
  decide

theorem scanOrder_getElem? (i : Nat) (hi : i < 81) : scanOrder[i]? = some (i / 9, i % 9) := by
  rw [scanOrder_eq, List.getElem?_map, List.getElem?_range hi]; rfl

theorem find?_eq_some_index {α : Type} (p : α → Bool) (l : List α) (x : α)
    (h : l.find? p = some x) :
    ∃ i : Nat, l[i]? = some x ∧ p x = true ∧
      ∀ j : Nat, j < i → ∀ y, l[j]? = some y → p y = false := by
  induction l with
  | nil => simp at h
  | cons a l ih =>
    rw [List.find?_cons] at h
    cases hpa : p a
    · rw [hpa] at h
      obtain ⟨i, hi, hpx, hlt⟩ := ih h
      refine ⟨i + 1, by simpa using hi, hpx, ?_⟩
      intro j hj y hy
      cases j with
      | zero => simp at hy; rw [← hy]; exact hpa
      | succ j => exact hlt j (by omega) y (by simpa using hy)
    · rw [hpa] at h
      simp only [Option.some.injEq] at h
      subst h
      exact ⟨0, by simp, hpa, fun j hj => absurd hj (Nat.not_lt_zero j)⟩

theorem firstEmpty_none {g : Grid} (h : firstEmpty g = none) : Full g := by
  intro r c hr hc hcell
  unfold firstEmpty at h
  rw [List.find?_eq_none] at h
  have := h (r, c) ((mem_scanOrder r c).2 ⟨hr, hc⟩)
  simp [hcell] at this

theorem firstEmpty_some {g : Grid} {r c : Nat} (h : firstEmpty g = some (r, c)) :
    r < 9 ∧ c < 9 ∧ cell g r c = some '.' ∧
      ∀ r' c', r' < 9 → c' < 9 → r' * 9 + c' < r * 9 + c → cell g r' c' ≠ some '.' := by
  unfold firstEmpty at h
  obtain ⟨i, hi, hp, hlt⟩ := find?_eq_some_index _ _ _ h
  have hmem : (r, c) ∈ scanOrder := List.getElem?_mem hi
  have hrc := (mem_scanOrder r c).1 hmem
  have hi81 : i < 81 := by
    by_contra hge
    have hlen : scanOrder.length = 81 := by decide
    rw [List.getElem?_eq_none (by rw [hlen]; omega)] at hi
    simp at hi
  rw [scanOrder_getElem? i hi81] at hi
  simp only [Option.some.injEq, Prod.mk.injEq] at hi
  refine ⟨hrc.1, hrc.2, by simpa using hp, ?_⟩
  intro r' c' hr' hc' hlt' hcell
  have hj : r' * 9 + c' < i := by omega
  have := hlt (r' * 9 + c') hj (r', c')
    (by rw [scanOrder_getElem? _ (by omega)]
        simp only [Option.some.injEq, Prod.mk.injEq]
        constructor <;> omega)
  simp [hcell] at this

/-! ## Counting the empty cells -/

theorem countP_eq_succ_of_flip {α : Type} [DecidableEq α] (p q : α → Bool) (x : α) (l : List α)
    (hnd : l.Nodup) (hx : x ∈ l) (hp : p x = true) (hq : q x = false)
    (hsame : ∀ y ∈ l, y ≠ x → q y = p y) : l.countP p = l.countP q + 1 := by
  induction l with
  | nil => simp at hx
  | cons a l ih =>
    rw [List.nodup_cons] at hnd
    by_cases hax : a = x
    · subst hax
      have hrest : l.countP p = l.countP q := by
        apply List.countP_congr
        intro y hy
        have hne : y ≠ a := fun e => hnd.1 (e ▸ hy)
        rw [hsame y (List.mem_cons_of_mem _ hy) hne]
      rw [List.countP_cons, List.countP_cons, hp, hq, hrest]
      simp
    · have hxl : x ∈ l := by
        rcases List.mem_cons.1 hx with h | h
        · exact absurd h.symm hax
        · exact h
      have := ih hnd.2 hxl (fun y hy hne => hsame y (List.mem_cons_of_mem _ hy) hne)
      rw [List.countP_cons, List.countP_cons, this, hsame a (List.mem_cons_self _ _) hax]
      omega

theorem emptyCount_setCell {g : Grid} (hg : Is9x9 g) {r c : Nat} (hr : r < 9) (hc : c < 9)
    (hcell : cell g r c = some '.') (v : Char) (hv : v ≠ '.') :
    emptyCount g = emptyCount (setCell g r c v) + 1 := by
  unfold emptyCount
  apply countP_eq_succ_of_flip _ _ (r, c) scanOrder scanOrder_nodup
    ((mem_scanOrder r c).2 ⟨hr, hc⟩)
  · simp [hcell]
  · simp [cell_setCell_same hg hr hc, hv]
  · rintro ⟨r', c'⟩ _ hne
    simp only [cell_setCell_ne g hne]

/-! ## Candidate digits -/

theorem digit_eq_digitChar (ch : Char) (h1 : '1' ≤ ch) (h9 : ch ≤ '9') :
    ∃ n, 1 ≤ n ∧ n ≤ 9 ∧ ch = digitChar n := by
  have h1' : 49 ≤ ch.toNat := h1
  have h9' : ch.toNat ≤ 57 := h9
  refine ⟨ch.toNat - 48, by omega, by omega, ?_⟩
  have : 48 + (ch.toNat - 48) = ch.toNat := by omega
  rw [digitChar, this]
  exact (Char.ofNat_toNat ch).symm

theorem digitChar_props (n : Nat) (h1 : 1 ≤ n) (h9 : n ≤ 9) :
    '1' ≤ digitChar n ∧ digitChar n ≤ '9' ∧ digitChar n ≠ '.' := by
  interval_cases n <;> decide

theorem digitChar_lt (n m : Nat) (h1 : 1 ≤ n) (h : n < m) (h9 : m ≤ 9) :
    digitChar n < digitChar m := by
  interval_cases m <;> interval_cases n <;> decide

theorem mem_candidates (n : Nat) : n ∈ candidates ↔ 1 ≤ n ∧ n ≤ 9 := by
  simp only [candidates, SIZE, List.mem_map, List.mem_range]
  constructor
  · rintro ⟨k, hk, rfl⟩; omega
  · intro h; exact ⟨n - 1, by omega, by omega⟩

theorem isPuzzleChar_iff (ch : Char) :
    isPuzzleChar ch = true ↔ ('1' ≤ ch ∧ ch ≤ '9') ∨ ch = '.' := by
  simp [isPuzzleChar]

/-! ## Writes and the invariants -/

theorem GridOK_setCell {g : Grid} (hg : GridOK g) (r c : Nat) (v : Char)
    (hv : isPuzzleChar v = true) : GridOK (setCell g r c v) := by
  refine ⟨Is9x9_setCell hg.1 r c v, ?_⟩
  intro r' c' hr' hc'
  by_cases h : (r', c') = (r, c)
  · simp only [Prod.mk.injEq] at h
    rw [h.1, h.2, cell_setCell_same hg.1 (h.1 ▸ hr') (h.2 ▸ hc')]
    exact ⟨v, rfl, hv⟩
  · rw [cell_setCell_ne g h]
    exact hg.2 r' c' hr' hc'

theorem Extends_refl (g : Grid) : Extends g g := fun _ _ _ _ _ _ h => h

theorem Extends_trans {g h k : Grid} (h1 : Extends g h) (h2 : Extends h k) : Extends g k :=
  fun r c v hr hc hv hcell => h2 r c v hr hc hv (h1 r c v hr hc hv hcell)

theorem Extends_setCell {g : Grid} {r c : Nat} (hcell : cell g r c = some '.') (v : Char) :
    Extends g (setCell g r c v) := by
  intro r' c' w _ _ hw hcw
  have hne : (r', c') ≠ (r, c) := by
    intro e
    simp only [Prod.mk.injEq] at e
    rw [e.1, e.2, hcell] at hcw
    exact hw (Option.some.inj hcw).symm
  rw [cell_setCell_ne g hne]
  exact hcw

theorem Extends_of_setCell {g h : Grid} (hg : Is9x9 g) {r c : Nat} (hr : r < 9) (hc : c < 9)
    {v : Char} (hext : Extends g h) (hh : cell h r c = some v) :
    Extends (setCell g r c v) h := by
  intro r' c' w hr' hc' hw hcw
  by_cases e : (r', c') = (r, c)
  · simp only [Prod.mk.injEq] at e
    rw [e.1, e.2, cell_setCell_same hg hr hc] at hcw
    rw [e.1, e.2, hh, ← Option.some.inj hcw]
  · rw [cell_setCell_ne g e] at hcw
    exact hext r' c' w hr' hc' hw hcw

theorem Consistent_setCell {g : Grid} (hg : Is9x9 g) (hcons : Consistent g) {r c : Nat}
    (hr : r < 9) (hc : c < 9) {v : Char} (hsafe : _isSafe g r c v = true) :
    Consistent (setCell g r c v) := by
  rw [isSafe_iff g r c v hr hc] at hsafe
  intro r1 c1 r2 c2 w hr1 hc1 hr2 hc2 hne hrel hw hcw
  by_cases e1 : (r1, c1) = (r, c)
  · have e2 : (r2, c2) ≠ (r, c) := fun e => hne (e1.trans e.symm)
    simp only [Prod.mk.injEq] at e1
    rw [e1.1, e1.2, cell_setCell_same hg hr hc] at hcw
    rw [cell_setCell_ne g e2, ← Option.some.inj hcw]
    rw [e1.1, e1.2] at hrel
    exact hsafe r2 c2 hr2 hc2 hrel
  · rw [cell_setCell_ne g e1] at hcw
    by_cases e2 : (r2, c2) = (r, c)
    · simp only [Prod.mk.injEq] at e2
      rw [e2.1, e2.2, cell_setCell_same hg hr hc]
      rw [e2.1, e2.2] at hrel
      intro hvw
      have hvw' : v = w := Option.some.inj hvw
      rw [hvw'] at hsafe
      exact hsafe r1 c1 hr1 hc1 (Related_symm hrel) hcw
    · rw [cell_setCell_ne g e2]
      exact hcons r1 c1 r2 c2 w hr1 hc1 hr2 hc2 hne hrel hw hcw

theorem isSafe_of_solution {g h : Grid} (hsol : SolutionOf g h) {r c : Nat} (hr : r < 9)
    (hc : c < 9) (hcell : cell g r c = some '.') {v : Char} (hv : v ≠ '.')
    (hh : cell h r c = some v) : _isSafe g r c v = true := by
  rw [isSafe_iff g r c v hr hc]
  intro r' c' hr' hc' hrel hcv
  have hne : (r, c) ≠ (r', c') := by
    intro e
    simp only [Prod.mk.injEq] at e
    rw [← e.1, ← e.2, hcell] at hcv
    exact hv (Option.some.inj hcv).symm
  exact hsol.2.2.1 r c r' c' v hr hc hr' hc' hne hrel hv hh
    (hsol.2.2.2 r' c' v hr' hc' hv hcv)

theorem SolutionOf_setCell {g h : Grid} (hg : Is9x9 g) (hsol : SolutionOf g h) {r c : Nat}
    (hr : r < 9) (hc : c < 9) {v : Char} (hh : cell h r c = some v) :
    SolutionOf (setCell g r c v) h :=
  ⟨hsol.1, hsol.2.1, hsol.2.2.1, Extends_of_setCell hg hr hc hsol.2.2.2 hh⟩

/-! ## The string of a grid -/

theorem flatten_map_singleton (row : List Char) : (row.map fun ch => [ch]).flatten = row := by
  induction row with
  | nil => rfl
  | cons a row ih => simp [ih]

theorem gridToString_eq (g : Grid) : _gridToString g = g.flatten := by
  unfold _gridToString
  congr 1
  conv_rhs => rw [← List.map_id g]
  exact List.map_congr_left fun row _ => flatten_map_singleton row

theorem getElem?_flatten_rows (n : Nat) (g : Grid) (hg : ∀ cells ∈ g, cells.length = n)
    (r c : Nat) (hc : c < n) : g.flatten[r * n + c]? = cell g r c := by
  induction g generalizing r with
  | nil => simp [cell]
  | cons row g ih =>
    have hrow : row.length = n := hg row (List.mem_cons_self _ _)
    rw [List.flatten_cons]
    cases r with
    | zero =>
      simp only [Nat.zero_mul, Nat.zero_add, cell, List.getElem?_cons_zero]
      exact List.getElem?_append_left (by omega)
    | succ r =>
      have hge : row.length ≤ (r + 1) * n + c := by rw [hrow, Nat.succ_mul]; omega
      rw [List.getElem?_append_right hge]
      have e : (r + 1) * n + c - row.length = r * n + c := by rw [hrow, Nat.succ_mul]; omega
      rw [e, ih (fun cells h => hg cells (List.mem_cons_of_mem _ h))]
      simp [cell]

theorem length_flatten_rows (n : Nat) (g : Grid) (hg : ∀ cells ∈ g, cells.length = n) :
    g.flatten.length = g.length * n := by
  induction g with
  | nil => simp
  | cons row g ih =>
    rw [List.flatten_cons, List.length_append, hg row (List.mem_cons_self _ _),
      ih (fun cells h => hg cells (List.mem_cons_of_mem _ h)), List.length_cons, Nat.succ_mul]
    omega

theorem gridToString_length {g : Grid} (hg : Is9x9 g) : (_gridToString g).length = 81 := by
  rw [gridToString_eq, length_flatten_rows 9 g hg.2, hg.1]

theorem gridToString_getElem? {g : Grid} (hg : Is9x9 g) (r c : Nat) (hc : c < 9) :
    (_gridToString g)[r * 9 + c]? = cell g r c := by
  rw [gridToString_eq, getElem?_flatten_rows 9 g hg.2 r c hc]

theorem gridToString_index {g : Grid} (hg : Is9x9 g) (i : Nat) :
    (_gridToString g)[i]? = cell g (i / 9) (i % 9) := by
  have := gridToString_getElem? hg (i / 9) (i % 9) (Nat.mod_lt _ (by decide))
  rwa [Nat.div_add_mod' i 9] at this

theorem Is9x9_stringToGrid (s : List Char) (hlen : s.length = 81) : Is9x9 (_stringToGrid s) := by
  refine ⟨by simp [_stringToGrid, SIZE], ?_⟩
  intro cells hmem
  simp only [_stringToGrid, SIZE, List.mem_map, List.mem_range] at hmem
  obtain ⟨r, hr, rfl⟩ := hmem
  rw [List.length_take, List.length_drop, hlen]
  omega

theorem GridOK_stringToGrid (s : List Char) (hs : validate (.str s) = .ok) :
    GridOK (_stringToGrid s) := by
  rw [validate_eq_ok] at hs
  refine ⟨Is9x9_stringToGrid s hs.1, ?_⟩
  intro r c hr hc
  rw [cell_stringToGrid s r c hr hc]
  have hlt : r * 9 + c < s.length := by rw [hs.1]; omega
  refine ⟨s[r * 9 + c], List.getElem?_eq_getElem hlt, ?_⟩
  rw [isPuzzleChar_iff]
  exact hs.2 _ (List.getElem_mem hlt)

/-! ## The backtracking search -/

theorem cell_eq_none_of_Is9x9 {g : Grid} (hg : Is9x9 g) {r c : Nat} (h : 9 ≤ r ∨ 9 ≤ c) :
    cell g r c = none := by
  unfold cell
  cases hrow : g[r]? with
  | none => rfl
  | some cells =>
    have hlen := hg.2 cells (List.getElem?_mem hrow)
    have hr : r < 9 := by
      by_contra hge
      rw [List.getElem?_eq_none (by rw [hg.1]; omega)] at hrow
      simp at hrow
    simp only
    exact List.getElem?_eq_none (by omega)

theorem solution_digit {g h : Grid} (hsol : SolutionOf g h) {r c : Nat} (hr : r < 9)
    (hc : c < 9) : ∃ n, n ∈ candidates ∧ cell h r c = some (digitChar n) := by
  obtain ⟨ch, hch, hp⟩ := hsol.1.2 r c hr hc
  rw [isPuzzleChar_iff] at hp
  rcases hp with ⟨h1, h9⟩ | hdot
  · obtain ⟨n, hn1, hn9, rfl⟩ := digit_eq_digitChar ch h1 h9
    exact ⟨n, (mem_candidates n).2 ⟨hn1, hn9⟩, hch⟩
  · rw [hdot] at hch
    exact absurd hch (hsol.2.1 r c hr hc)

theorem gridToString_eq_of_full {g h : Grid} (hg : GridOK g) (hfull : Full g)
    (hh : Is9x9 h) (hext : Extends g h) : _gridToString g = _gridToString h := by
  apply List.ext_getElem?
  intro i
  rw [gridToString_index hg.1, gridToString_index hh]
  by_cases hi : i / 9 < 9
  · have hc : i % 9 < 9 := Nat.mod_lt _ (by decide)
    obtain ⟨ch, hch, -⟩ := hg.2 _ _ hi hc
    have hne : ch ≠ '.' := fun e => hfull _ _ hi hc (e ▸ hch)
    rw [hch, hext _ _ ch hi hc hne hch]
  · rw [cell_eq_none_of_Is9x9 hg.1 (Or.inl (by omega)),
      cell_eq_none_of_Is9x9 hh (Or.inl (by omega))]

theorem tryCandidates_spec (fuel : Nat)
    (ih : ∀ g, GridOK g → emptyCount g < fuel →
      ∃ res, _solveBacktracking fuel g = some res ∧ SolveSpec g res)
    (g : Grid) (hg : GridOK g) (hcount : emptyCount g < fuel + 1) (r c : Nat)
    (hr : r < 9) (hc : c < 9) (hcell : cell g r c = some '.')
    (hbefore : ∀ r' c', r' < 9 → c' < 9 → r' * 9 + c' < r * 9 + c →
      cell g r' c' ≠ some '.')
    (nums : List Nat) (hnums : ∀ n ∈ nums, 1 ≤ n ∧ n ≤ 9)
    (hsorted : nums.Pairwise (· < ·)) :
    ∃ res, tryCandidates (_solveBacktracking fuel) r c nums g = some res ∧
      (res.1 = false → res.2 = g ∧
        ∀ h, SolutionOf g h → ∀ n ∈ nums, cell h r c ≠ some (digitChar n)) ∧
      (res.1 = true → GridOK res.2 ∧ Full res.2 ∧ Extends g res.2 ∧
        (Consistent g → Consistent res.2) ∧
        ∀ h, SolutionOf g h → (∃ n ∈ nums, cell h r c = some (digitChar n)) →
          LexLE (_gridToString res.2) (_gridToString h)) := by
  induction nums with
  | nil =>
    refine ⟨(false, g), rfl, fun _ => ⟨rfl, fun _ _ n hn => absurd hn (List.not_mem_nil n)⟩, ?_⟩
    intro h; simp at h
  | cons a rest ihrest =>
    have ha := hnums a (List.mem_cons_self _ _)
    obtain ⟨hd1, hd9, hdot⟩ := digitChar_props a ha.1 ha.2
    have hrest := ihrest (fun n hn => hnums n (List.mem_cons_of_mem _ hn))
      (List.Pairwise.of_cons hsorted)
    -- skipping the candidate `a` is sound when no solution holds it at `(r, c)`
    have skip : (∀ h, SolutionOf g h → cell h r c ≠ some (digitChar a)) →
        ∃ res, tryCandidates (_solveBacktracking fuel) r c rest g = some res ∧
          (res.1 = false → res.2 = g ∧
            ∀ h, SolutionOf g h → ∀ n ∈ a :: rest, cell h r c ≠ some (digitChar n)) ∧
          (res.1 = true → GridOK res.2 ∧ Full res.2 ∧ Extends g res.2 ∧
            (Consistent g → Consistent res.2) ∧
            ∀ h, SolutionOf g h → (∃ n ∈ a :: rest, cell h r c = some (digitChar n)) →
              LexLE (_gridToString res.2) (_gridToString h)) := by
      intro hno
      obtain ⟨res, hres, hf, ht⟩ := hrest
      refine ⟨res, hres, ?_, ?_⟩
      · intro hb
        refine ⟨(hf hb).1, ?_⟩
        intro h hsol n hn
        rcases List.mem_cons.1 hn with e | hn'
        · rw [e]; exact hno h hsol
        · exact (hf hb).2 h hsol n hn'
      · intro hb
        obtain ⟨h1, h2, h3, h4, h5⟩ := ht hb
        refine ⟨h1, h2, h3, h4, ?_⟩
        rintro h hsol ⟨n, hn, hcn⟩
        rcases List.mem_cons.1 hn with e | hn'
        · rw [e] at hcn; exact absurd hcn (hno h hsol)
        · exact h5 h hsol ⟨n, hn', hcn⟩
    rw [tryCandidates]
    by_cases hsafe : _isSafe g r c (digitChar a) = true
    · rw [if_pos hsafe]
      have hg1 : GridOK (setCell g r c (digitChar a)) :=
        GridOK_setCell hg r c _ ((isPuzzleChar_iff _).2 (Or.inl ⟨hd1, hd9⟩))
      have hcount1 : emptyCount (setCell g r c (digitChar a)) < fuel := by
        have := emptyCount_setCell hg.1 hr hc hcell (digitChar a) hdot
        omega
      obtain ⟨⟨b, g'⟩, hcall, hspecF, hspecT⟩ := ih _ hg1 hcount1
      rw [hcall]
      cases b with
      | true =>
        obtain ⟨h1, h2, h3, h4, h5⟩ := hspecT rfl
        simp only at h1 h2 h3 h4 h5
        refine ⟨(true, g'), rfl, fun hb => by simp at hb, fun _ => ?_⟩
        refine ⟨h1, h2, Extends_trans (Extends_setCell hcell _) h3,
          fun hcons => h4 (Consistent_setCell hg.1 hcons hr hc hsafe), ?_⟩
        rintro h hsol ⟨n, hn, hcn⟩
        rcases List.mem_cons.1 hn with e | hn'
        · rw [e] at hcn
          exact h5 h (SolutionOf_setCell hg.1 hsol hr hc hcn)
        · have hlt : a < n := List.rel_of_pairwise_cons hsorted hn'
          have hn9 := (hnums n hn).2
          refine Or.inr ⟨r * 9 + c, ?_, digitChar a, digitChar n, ?_, ?_,
            digitChar_lt a n ha.1 hlt hn9⟩
          · intro j hj
            rw [gridToString_index h1.1, gridToString_index hsol.1.1]
            have hj9 : j / 9 < 9 := by omega
            have hjc : j % 9 < 9 := Nat.mod_lt _ (by decide)
            obtain ⟨ch, hch, -⟩ := hg.2 _ _ hj9 hjc
            have hne : ch ≠ '.' := by
              intro e
              rw [e] at hch
              exact hbefore _ _ hj9 hjc (by rw [Nat.div_add_mod' j 9]; exact hj) hch
            rw [(Extends_trans (Extends_setCell hcell _) h3) _ _ ch hj9 hjc hne hch,
              hsol.2.2.2 _ _ ch hj9 hjc hne hch]
          · rw [gridToString_getElem? h1.1 r c hc]
            exact h3 r c _ hr hc hdot (cell_setCell_same hg.1 hr hc _)
          · rw [gridToString_getElem? hsol.1.1 r c hc]
            exact hcn
      | false =>
        obtain ⟨hback, hnone⟩ := hspecF rfl
        simp only at hback hnone
        simp only
        rw [hback, setCell_setCell, setCell_self g r c '.' hcell]
        exact skip fun h hsol hcn => hnone h (SolutionOf_setCell hg.1 hsol hr hc hcn)
    · rw [if_neg hsafe]
      exact skip fun h hsol hcn => hsafe (isSafe_of_solution hsol hr hc hcell hdot hcn)

theorem candidates_sorted : candidates.Pairwise (· < ·) := by
  decide

theorem solveBacktracking_spec (fuel : Nat) :
    ∀ g, GridOK g → emptyCount g < fuel →
      ∃ res, _solveBacktracking fuel g = some res ∧ SolveSpec g res := by
  induction fuel with
  | zero => intro g _ h; exact absurd h (Nat.not_lt_zero _)
  | succ fuel ih =>
    intro g hg hcount
    rw [_solveBacktracking]
    cases hfe : firstEmpty g with
    | none =>
      have hfull := firstEmpty_none hfe
      refine ⟨(true, g), rfl, fun hb => by simp at hb, fun _ => ?_⟩
      exact ⟨hg, hfull, Extends_refl g, id,
        fun h hsol => Or.inl (gridToString_eq_of_full hg hfull hsol.1.1 hsol.2.2.2)⟩
    | some rc =>
      obtain ⟨r, c⟩ := rc
      obtain ⟨hr, hc, hcell, hbefore⟩ := firstEmpty_some hfe
      obtain ⟨res, hres, hf, ht⟩ := tryCandidates_spec fuel ih g hg hcount r c hr hc hcell
        hbefore candidates (fun n hn => (mem_candidates n).1 hn) candidates_sorted
      refine ⟨res, hres, ?_, ?_⟩
      · intro hb
        refine ⟨(hf hb).1, ?_⟩
        intro h hsol
        obtain ⟨n, hn, hcn⟩ := solution_digit hsol hr hc
        exact (hf hb).2 h hsol n hn hcn
      · intro hb
        obtain ⟨h1, h2, h3, h4, h5⟩ := ht hb
        exact ⟨h1, h2, h3, h4, fun h hsol => h5 h hsol (solution_digit hsol hr hc)⟩

/-! ## The check of the initial board -/

theorem initialBoardLoop_spec {g : Grid} (hg : Is9x9 g) (cells : List (Nat × Nat))
    (hcells : ∀ rc ∈ cells, rc.1 < 9 ∧ rc.2 < 9) :
    (initialBoardLoop cells g).2 = g ∧
    ((initialBoardLoop cells g).1 = true ↔
      ∀ rc ∈ cells, ∀ v, v ≠ '.' → cell g rc.1 rc.2 = some v →
        _isSafe (setCell g rc.1 rc.2 '.') rc.1 rc.2 v = true) := by
  induction cells with
  | nil => simp [initialBoardLoop]
  | cons rc rest ih =>
    obtain ⟨r, c⟩ := rc
    have hrest := ih fun rc hrc => hcells rc (List.mem_cons_of_mem _ hrc)
    have hrc := hcells (r, c) (List.mem_cons_self _ _)
    rw [initialBoardLoop]
    cases hcell : cell g r c with
    | none =>
      have := cell_isSome_of_Is9x9 hg hrc.1 hrc.2
      rw [hcell] at this
      simp at this
    | some value =>
      simp only
      by_cases hdot : value = '.'
      · rw [if_pos hdot]
        refine ⟨hrest.1, hrest.2.trans ?_⟩
        simp only [List.mem_cons, forall_eq_or_imp]
        constructor
        · intro h
          refine ⟨?_, h⟩
          intro v hv hcv
          rw [hcell, hdot] at hcv
          exact absurd (Option.some.inj hcv).symm hv
        · exact fun h => h.2
      · rw [if_neg hdot, setCell_setCell, setCell_self g r c value hcell]
        cases hsafe : _isSafe (setCell g r c '.') r c value
        · simp only [Bool.not_false, if_true, Bool.false_eq_true, false_iff, true_and]
          intro h
          have := h (r, c) (List.mem_cons_self _ _) value hdot hcell
          rw [hsafe] at this
          exact absurd this (by simp)
        · simp only [Bool.not_true, Bool.false_eq_true, if_false]
          refine ⟨hrest.1, hrest.2.trans ?_⟩
          simp only [List.mem_cons, forall_eq_or_imp]
          constructor
          · intro h
            refine ⟨?_, h⟩
            intro v hv hcv
            rw [hcell] at hcv
            rw [← Option.some.inj hcv]
            exact hsafe
          · exact fun h => h.2

theorem isInitialBoardValid_spec {g : Grid} (hg : Is9x9 g) :
    (_isInitialBoardValid g).2 = g ∧ ((_isInitialBoardValid g).1 = true ↔ Consistent g) := by
  have h := initialBoardLoop_spec hg scanOrder
    (fun rc hrc => (mem_scanOrder rc.1 rc.2).1 hrc)
  refine ⟨h.1, h.2.trans ?_⟩
  constructor
  · intro hall r c r' c' v hr hc hr' hc' hne hrel hv hcv
    have hsafe := hall (r, c) ((mem_scanOrder r c).2 ⟨hr, hc⟩) v hv hcv
    rw [isSafe_iff _ r c v hr hc] at hsafe
    have := hsafe r' c' hr' hc' hrel
    rwa [cell_setCell_ne g (fun e => hne e.symm)] at this
  · rintro hcons ⟨r, c⟩ hrc v hv hcv
    have hrc' := (mem_scanOrder r c).1 hrc
    rw [isSafe_iff _ r c v hrc'.1 hrc'.2]
    intro r' c' hr' hc' hrel
    by_cases e : (r', c') = (r, c)
    · simp only [Prod.mk.injEq] at e
      rw [e.1, e.2, cell_setCell_same hg hrc'.1 hrc'.2]
      intro h
      exact hv (Option.some.inj h).symm
    · rw [cell_setCell_ne g e]
      exact hcons r c r' c' v hrc'.1 hrc'.2 hr' hc' (fun e' => e e'.symm) hrel hv hcv

theorem emptyCount_le (g : Grid) : emptyCount g ≤ 81 := by
  have h : scanOrder.length = 81 := by decide
  rw [← h]
  exact List.countP_le_length _

theorem Consistent_of_solution {g h : Grid} (hsol : SolutionOf g h) : Consistent g := by
  intro r c r' c' v hr hc hr' hc' hne hrel hv hcv hcv'
  exact hsol.2.2.1 r c r' c' v hr hc hr' hc' hne hrel hv
    (hsol.2.2.2 r c v hr hc hv hcv) (hsol.2.2.2 r' c' v hr' hc' hv hcv')

/-- The run of `solve` on a well-formed string, step by step: `null` when the
givens clash, otherwise the outcome of a search that returns. -/
theorem solve_valid (p : List Char) (hp : validate (.str p) = .ok) :
    (¬ Consistent (_stringToGrid p) ∧ solve (.str p) = some none) ∨
    (Consistent (_stringToGrid p) ∧
      ∃ res, SolveSpec (_stringToGrid p) res ∧
        ((res.1 = true ∧ solve (.str p) = some (some (_gridToString res.2))) ∨
         (res.1 = false ∧ solve (.str p) = some none))) := by
  have hg := GridOK_stringToGrid p hp
  have hinit := isInitialBoardValid_spec hg.1
  simp only [solve, solveWithin, hp, Validation.valid, Bool.not_true, Bool.false_eq_true,
    if_false]
  rcases hres : _isInitialBoardValid (_stringToGrid p) with ⟨b, g'⟩
  rw [hres] at hinit
  simp only at hinit
  cases b with
  | false =>
    left
    exact ⟨fun hcons => by simpa using hinit.2.2 hcons, rfl⟩
  | true =>
    right
    refine ⟨hinit.2.1 rfl, ?_⟩
    simp only [hinit.1]
    obtain ⟨⟨b, solved⟩, hcall, hspec⟩ := solveBacktracking_spec (SIZE * SIZE + 1)
      (_stringToGrid p) hg (by have := emptyCount_le (_stringToGrid p); simp only [SIZE]; omega)
    rw [hcall]
    refine ⟨(b, solved), hspec, ?_⟩
    cases b with
    | true => exact Or.inl ⟨rfl, rfl⟩
    | false => exact Or.inr ⟨rfl, rfl⟩

theorem solve_invalid (x : JSVal) (hx : validate x ≠ .ok) : solve x = some none := by
  cases x with
  | str p =>
    have : (validate (.str p)).valid = false := by
      cases hv : validate (.str p) with
      | ok => exact absurd hv hx
      | fail e => rfl
    simp [solve, solveWithin, this]
  | num n => rfl
  | other a => rfl

/-! ## Solved grids and completions of a string -/

theorem nodup_map_range_iff {α : Type} (n : Nat) (f : Nat → α) :
    ((List.range n).map f).Nodup ↔ ∀ i j, i < n → j < n → i ≠ j → f i ≠ f j := by
  rw [List.nodup_map_iff_inj_on (List.nodup_range n)]
  simp only [List.mem_range]
  constructor
  · intro h i j hi hj hne e; exact hne (h i hi j hj e)
  · intro h i hi j hj e; by_contra hne; exact h i j hi hj hne e

/-- The rows, columns and regions of a string repeat no cell exactly when no
two different related cells are equal. -/
theorem units_nodup_iff (s : List Char) :
    (∀ k, k < 9 → (rowCells s k).Nodup ∧ (colCells s k).Nodup ∧ (regionCells s k).Nodup) ↔
      ∀ r c r' c', r < 9 → c < 9 → r' < 9 → c' < 9 → (r, c) ≠ (r', c') →
        Related r c r' c' → s[r * 9 + c]? ≠ s[r' * 9 + c']? := by
  simp only [rowCells, colCells, regionCells, nodup_map_range_iff]
  constructor
  · intro h r c r' c' hr hc hr' hc' hne hrel
    rcases hrel with e | e | ⟨e1, e2⟩
    · subst e
      exact (h r' hr').1 c c' hc hc' (fun e => hne (by rw [e]))
    · subst e
      exact (h c' hc').2.1 r r' hr hr' (fun e => hne (by rw [e]))
    · have := (h (r / 3 * 3 + c / 3) (by omega)).2.2 (r % 3 * 3 + c % 3) (r' % 3 * 3 + c' % 3)
        (by omega) (by omega)
        (by
          intro e
          apply hne
          have h1 : r = r' := by omega
          have h2 : c = c' := by omega
          rw [h1, h2])
      have i1 : ((r / 3 * 3 + c / 3) / 3 * 3 + (r % 3 * 3 + c % 3) / 3) * 9
          + ((r / 3 * 3 + c / 3) % 3 * 3 + (r % 3 * 3 + c % 3) % 3) = r * 9 + c := by omega
      have i2 : ((r / 3 * 3 + c / 3) / 3 * 3 + (r' % 3 * 3 + c' % 3) / 3) * 9
          + ((r / 3 * 3 + c / 3) % 3 * 3 + (r' % 3 * 3 + c' % 3) % 3) = r' * 9 + c' := by omega
      rwa [i1, i2] at this
  · intro h k hk
    refine ⟨?_, ?_, ?_⟩
    · intro i j hi hj hne
      exact h k i k j hk hi hk hj (fun e => hne (by simpa using e)) (Or.inl rfl)
    · intro i j hi hj hne
      exact h i k j k hi hk hj hk (fun e => hne (by simpa using e)) (Or.inr (Or.inl rfl))
    · intro i j hi hj hne
      exact h (k / 3 * 3 + i / 3) (k % 3 * 3 + i % 3) (k / 3 * 3 + j / 3) (k % 3 * 3 + j % 3)
        (by omega) (by omega) (by omega) (by omega)
        (by
          intro e
          simp only [Prod.mk.injEq] at e
          omega)
        (Or.inr (Or.inr ⟨by omega, by omega⟩))

theorem gridToString_stringToGrid (t : List Char) (hlen : t.length = 81) :
    _gridToString (_stringToGrid t) = t := by
  apply List.ext_getElem?
  intro i
  rw [gridToString_index (Is9x9_stringToGrid t hlen)]
  by_cases hi : i < 81
  · rw [cell_stringToGrid t _ _ (by omega) (Nat.mod_lt _ (by decide)), Nat.div_add_mod' i 9]
  · rw [cell_eq_none_of_Is9x9 (Is9x9_stringToGrid t hlen) (Or.inl (by omega)),
      List.getElem?_eq_none (by omega)]

theorem completion_of_solution {p : List Char} (hp : validate (.str p) = .ok) {h : Grid}
    (hsol : SolutionOf (_stringToGrid p) h) : Completion p (_gridToString h) := by
  obtain ⟨hok, hfull, hcons, hext⟩ := hsol
  have hplen := ((validate_eq_ok p).1 hp).1
  refine ⟨gridToString_length hok.1, ?_, ?_, ?_⟩
  · intro ch hch
    obtain ⟨i, hi⟩ := List.mem_iff_getElem?.1 hch
    have hi81 : i < 81 := by
      by_contra hge
      rw [List.getElem?_eq_none (by rw [gridToString_length hok.1]; omega)] at hi
      simp at hi
    rw [gridToString_index hok.1] at hi
    obtain ⟨ch', hch', hpc⟩ := hok.2 (i / 9) (i % 9) (by omega) (Nat.mod_lt _ (by decide))
    rw [hi] at hch'
    rw [← Option.some.inj hch', isPuzzleChar_iff] at hpc
    rcases hpc with hd | hdot
    · exact hd
    · rw [hdot] at hi
      exact absurd hi (hfull _ _ (by omega) (Nat.mod_lt _ (by decide)))
  · intro i hi hix
    have hi81 : i < 81 := by omega
    have hi9 : i / 9 < 9 := by omega
    have him : i % 9 < 9 := Nat.mod_lt _ (by decide)
    have hx : p[i]? = some p[i] := List.getElem?_eq_getElem hi
    have hne : p[i] ≠ '.' := fun e => hix (by rw [hx, e])
    rw [gridToString_index hok.1, hx]
    apply hext _ _ p[i] hi9 him hne
    rw [cell_stringToGrid p _ _ hi9 him, Nat.div_add_mod' i 9]
    exact hx
  · rw [units_nodup_iff]
    intro r c r' c' hr hc hr' hc' hne hrel
    rw [gridToString_getElem? hok.1 r c hc, gridToString_getElem? hok.1 r' c' hc']
    obtain ⟨v, hv, -⟩ := hok.2 r c hr hc
    have hvd : v ≠ '.' := fun e => hfull r c hr hc (e ▸ hv)
    rw [hv]
    exact fun e => hcons r c r' c' v hr hc hr' hc' hne hrel hvd hv e.symm

theorem validate_of_completion {p t : List Char} (ht : Completion p t) :
    validate (.str t) = .ok :=
  (validate_eq_ok t).2 ⟨ht.1, fun ch hch => Or.inl (ht.2.1 ch hch)⟩

theorem solution_of_completion {p t : List Char} (ht : Completion p t) :
    SolutionOf (_stringToGrid p) (_stringToGrid t) := by
  have hok := GridOK_stringToGrid t (validate_of_completion ht)
  obtain ⟨hlen, hdig, hagree, hunits⟩ := ht
  rw [units_nodup_iff] at hunits
  refine ⟨hok, ?_, ?_, ?_⟩
  · intro r c hr hc hcell
    rw [cell_stringToGrid t r c hr hc] at hcell
    exact absurd (hdig '.' (List.getElem?_mem hcell)).1 (by decide)
  · intro r c r' c' v hr hc hr' hc' hne hrel _ hcv hcv'
    rw [cell_stringToGrid t r c hr hc] at hcv
    rw [cell_stringToGrid t r' c' hr' hc'] at hcv'
    exact hunits r c r' c' hr hc hr' hc' hne hrel (hcv.trans hcv'.symm)
  · intro r c v hr hc hv hcv
    rw [cell_stringToGrid p r c hr hc] at hcv
    rw [cell_stringToGrid t r c hr hc, ← hcv]
    have hi : r * 9 + c < p.length := by
      by_contra hge
      rw [List.getElem?_eq_none (by omega)] at hcv
      simp at hcv
    apply hagree _ hi
    rw [hcv]
    exact fun e => hv (Option.some.inj e)

theorem count_eq_one_of_nodup_mem {α : Type} [BEq α] [LawfulBEq α] (a : α) (l : List α)
    (hnd : l.Nodup) (hmem : a ∈ l) : l.count a = 1 := by
  induction l with
  | nil => simp at hmem
  | cons b l ih =>
    rw [List.nodup_cons] at hnd
    rw [List.count_cons]
    by_cases hba : b = a
    · subst hba
      simp [List.count_eq_zero_of_not_mem hnd.1]
    · have hal : a ∈ l := by
        rcases List.mem_cons.1 hmem with e | e
        · exact absurd e.symm hba
        · exact e
      simp [ih hnd.2 hal, hba]

/-- Nine different cells, each a digit `'1'..'9'`, hold every digit exactly
once. -/
theorem count_eq_one_of_nodup (l : List (Option Char)) (hlen : l.length = 9)
    (hnd : l.Nodup) (hdig : ∀ x ∈ l, ∃ d, x = some d ∧ '1' ≤ d ∧ d ≤ '9')
    (d : Char) (h1 : '1' ≤ d) (h9 : d ≤ '9') : l.count (some d) = 1 := by
  have hsub : l ⊆ candidates.map fun n => some (digitChar n) := by
    intro x hx
    obtain ⟨e, rfl, he1, he9⟩ := hdig x hx
    obtain ⟨n, hn1, hn9, rfl⟩ := digit_eq_digitChar e he1 he9
    exact List.mem_map.2 ⟨n, (mem_candidates n).2 ⟨hn1, hn9⟩, rfl⟩
  have hperm : l.Perm (candidates.map fun n => some (digitChar n)) :=
    (List.subperm_of_subset hnd hsub).perm_of_length_le (by rw [hlen]; decide)
  obtain ⟨n, hn1, hn9, rfl⟩ := digit_eq_digitChar d h1 h9
  have hmem : some (digitChar n) ∈ l :=
    hperm.mem_iff.2 (List.mem_map.2 ⟨n, (mem_candidates n).2 ⟨hn1, hn9⟩, rfl⟩)
  exact count_eq_one_of_nodup_mem _ l hnd hmem

theorem getElem?_digit {t : List Char} (hlen : t.length = 81)
    (hdig : ∀ ch ∈ t, '1' ≤ ch ∧ ch ≤ '9') (i : Nat) (hi : i < 81) :
    ∃ d, t[i]? = some d ∧ '1' ≤ d ∧ d ≤ '9' := by
  have hlt : i < t.length := by rw [hlen]; exact hi
  exact ⟨t[i], List.getElem?_eq_getElem hlt, hdig _ (List.getElem_mem hlt)⟩

theorem Completion_exactly_once {p t : List Char} (ht : Completion p t) (k : Nat) (hk : k < 9)
    (d : Char) (h1 : '1' ≤ d) (h9 : d ≤ '9') :
    (rowCells t k).count (some d) = 1 ∧ (colCells t k).count (some d) = 1 ∧
      (regionCells t k).count (some d) = 1 := by
  obtain ⟨hlen, hdig, -, hunits⟩ := ht
  obtain ⟨hrow, hcol, hreg⟩ := hunits k hk
  refine ⟨count_eq_one_of_nodup _ (by simp [rowCells]) hrow ?_ d h1 h9,
    count_eq_one_of_nodup _ (by simp [colCells]) hcol ?_ d h1 h9,
    count_eq_one_of_nodup _ (by simp [regionCells]) hreg ?_ d h1 h9⟩
  · intro x hx
    simp only [rowCells, List.mem_map, List.mem_range] at hx
    obtain ⟨c, hc, rfl⟩ := hx
    obtain ⟨e, he, hed⟩ := getElem?_digit hlen hdig (k * 9 + c) (by omega)
    exact ⟨e, he, hed⟩
  · intro x hx
    simp only [colCells, List.mem_map, List.mem_range] at hx
    obtain ⟨r, hr, rfl⟩ := hx
    obtain ⟨e, he, hed⟩ := getElem?_digit hlen hdig (r * 9 + k) (by omega)
    exact ⟨e, he, hed⟩
  · intro x hx
    simp only [regionCells, List.mem_map, List.mem_range] at hx
    obtain ⟨j, hj, rfl⟩ := hx
    obtain ⟨e, he, hed⟩ := getElem?_digit hlen hdig
      ((k / 3 * 3 + j / 3) * 9 + (k % 3 * 3 + j % 3)) (by omega)
    exact ⟨e, he, hed⟩

/-! ## solve: what it returns -/

theorem solve_some {p s : List Char} (h : solve (.str p) = some (some s)) :
    validate (.str p) = .ok ∧ ∃ g, SolutionOf (_stringToGrid p) g ∧ s = _gridToString g ∧
      ∀ g', SolutionOf (_stringToGrid p) g' → LexLE s (_gridToString g') := by
  by_cases hp : validate (.str p) = .ok
  · refine ⟨hp, ?_⟩
    rcases solve_valid p hp with ⟨-, hnull⟩ | ⟨hcons, res, hspec, ⟨hb, hs⟩ | ⟨-, hnull⟩⟩
    · rw [hnull] at h; simp at h
    · obtain ⟨h1, h2, h3, h4, h5⟩ := hspec.2 hb
      rw [hs] at h
      have hs' : _gridToString res.2 = s := Option.some.inj (Option.some.inj h)
      exact ⟨res.2, ⟨h1, h2, h4 hcons, h3⟩, hs'.symm, fun g' hg' => hs' ▸ h5 g' hg'⟩
    · rw [hnull] at h; simp at h
  · rw [solve_invalid _ hp] at h; simp at h

theorem solve_of_solution {p : List Char} (hp : validate (.str p) = .ok) {g : Grid}
    (hsol : SolutionOf (_stringToGrid p) g) : ∃ s, solve (.str p) = some (some s) := by
  rcases solve_valid p hp with ⟨hncons, -⟩ | ⟨-, res, hspec, ⟨-, hs⟩ | ⟨hb, -⟩⟩
  · exact absurd (Consistent_of_solution hsol) hncons
  · exact ⟨_, hs⟩
  · exact absurd hsol ((hspec.1 hb).2 g)

theorem solve_returns (x : JSVal) : ∃ r, solve x = some r := by
  by_cases hx : validate x = .ok
  · cases x with
    | str p =>
      rcases solve_valid p hx with ⟨-, h⟩ | ⟨-, res, -, ⟨-, h⟩ | ⟨-, h⟩⟩ <;> exact ⟨_, h⟩
    | num n => exact ⟨_, rfl⟩
    | other a => exact ⟨_, rfl⟩
  · exact ⟨_, solve_invalid x hx⟩

theorem solve_completion {p s : List Char} (h : solve (.str p) = some (some s)) :
    validate (.str p) = .ok ∧ Completion p s ∧ ∀ t, Completion p t → LexLE s t := by
  obtain ⟨hp, g, hsol, rfl, hlex⟩ := solve_some h
  refine ⟨hp, completion_of_solution hp hsol, ?_⟩
  intro t ht
  have := hlex _ (solution_of_completion ht)
  rwa [gridToString_stringToGrid t ht.1] at this

theorem solve_of_completion {p t : List Char} (hp : validate (.str p) = .ok)
    (ht : Completion p t) : ∃ s, solve (.str p) = some (some s) :=
  solve_of_solution hp (solution_of_completion ht)

theorem solve_eq_of_unique {p t : List Char} (hp : validate (.str p) = .ok)
    (ht : Completion p t) (huniq : ∀ t', Completion p t' → t' = t) :
    solve (.str p) = some (some t) := by
  obtain ⟨s, hs⟩ := solve_of_completion hp ht
  rw [hs, huniq s (solve_completion hs).2.1]

/-! ## Puzzles settled by forced placements -/

theorem forcedChain_spec (steps : List (Nat × Nat × Char)) :
    ∀ g g', GridOK g → forcedChain steps g = some g' →
      ∀ h, SolutionOf g h → SolutionOf g' h := by
  induction steps with
  | nil =>
    intro g g' _ hchain h hsol
    simp only [forcedChain, Option.some.injEq] at hchain
    exact hchain ▸ hsol
  | cons step rest ih =>
    obtain ⟨r, c, v⟩ := step
    intro g g' hg hchain h hsol
    rw [forcedChain] at hchain
    split_ifs at hchain with hstep
    simp only [forcedStep, Bool.and_eq_true, decide_eq_true_eq, beq_iff_eq,
      List.all_eq_true, Bool.or_eq_true, Bool.not_eq_true'] at hstep
    obtain ⟨⟨⟨⟨hr, hc⟩, hcell⟩, hv⟩, hall⟩ := hstep
    obtain ⟨n, hn, hcn⟩ := solution_digit hsol hr hc
    have hdot := (digitChar_props n ((mem_candidates n).1 hn).1 ((mem_candidates n).1 hn).2).2.2
    have hsafe := isSafe_of_solution hsol hr hc hcell hdot hcn
    have hnv : digitChar n = v := by
      rcases hall n hn with e | e
      · exact e
      · rw [hsafe] at e; exact absurd e (by simp)
    rw [hnv] at hcn
    exact ih _ g' (GridOK_setCell hg r c v hv) hchain h (SolutionOf_setCell hg.1 hsol hr hc hcn)

theorem unique_of_forcedChain {p t : List Char} (hp : validate (.str p) = .ok)
    (steps : List (Nat × Nat × Char))
    (hchain : forcedChain steps (_stringToGrid p) = some (_stringToGrid t))
    (ht : Completion p t) : ∀ t', Completion p t' → t' = t := by
  intro t' ht'
  have hsol := forcedChain_spec steps _ _ (GridOK_stringToGrid p hp) hchain _
    (solution_of_completion ht')
  have hself := solution_of_completion ht
  have := gridToString_eq_of_full hself.1 hself.2.1 hsol.1.1 hsol.2.2.2
  rw [gridToString_stringToGrid t ht.1, gridToString_stringToGrid t' ht'.1] at this
  exact this.symm

/-- C1: when `solve` returns a string `s` for the puzzle string `p`, `s` has 81
characters, all digits `'1'..'9'`; every row, column and 3x3 region of `s`
holds each digit exactly once; and `s` keeps every given of `p`. -/
theorem solve_sound (p s : List Char) (h : solve (.str p) = some (some s)) :
    s.length = 81 ∧ (∀ ch ∈ s, '1' ≤ ch ∧ ch ≤ '9') ∧
    (∀ k, k < 9 → ∀ d, '1' ≤ d → d ≤ '9' →
      (rowCells s k).count (some d) = 1 ∧ (colCells s k).count (some d) = 1 ∧
        (regionCells s k).count (some d) = 1) ∧
    (∀ i, i < p.length → p[i]? ≠ some '.' → s[i]? = p[i]?) := by
  obtain ⟨-, hcomp, -⟩ := solve_completion h
  exact ⟨hcomp.1, hcomp.2.1, fun k hk d h1 h9 => Completion_exactly_once hcomp k hk d h1 h9, hcomp.2.2.1⟩

/-- C2: `solve` always returns, and it returns a string exactly when the input
is a well-formed puzzle string that has a completion; it returns `null` exactly
when the format is invalid or no completion exists. -/
theorem solve_complete (x : JSVal) :
    ((∃ s, solve x = some (some s)) ↔
      (validate x = .ok ∧ ∃ p t, x = .str p ∧ Completion p t)) ∧
    (solve x = some none ↔ ¬ (validate x = .ok ∧ ∃ p t, x = .str p ∧ Completion p t)) := by
  have hiff : (∃ s, solve x = some (some s)) ↔
      (validate x = .ok ∧ ∃ p t, x = .str p ∧ Completion p t) := by
    constructor
    · rintro ⟨s, hs⟩
      cases x with
      | str p =>
        obtain ⟨hp, hcomp, -⟩ := solve_completion hs
        exact ⟨hp, p, s, rfl, hcomp⟩
      | num n => simp [solve, solveWithin] at hs
      | other a => simp [solve, solveWithin] at hs
    · rintro ⟨hp, p, t, rfl, ht⟩
      exact solve_of_completion hp ht
  refine ⟨hiff, ?_⟩
  rw [← hiff]
  obtain ⟨r, hr⟩ := solve_returns x
  rw [hr]
  cases r with
  | none => simp
  | some s => simp

/-- C3: a well-formed puzzle string with exactly one completion `t` is solved to
exactly `t`. -/
theorem solve_unique (p t : List Char) (hp : validate (.str p) = .ok)
    (ht : Completion p t) (huniq : ∀ t', Completion p t' → t' = t) :
    solve (.str p) = some (some t) :=
  solve_eq_of_unique hp ht huniq

/-- C4: the string `solve` returns for a well-formed puzzle string is the
smallest completion in the character-by-character row-major order. -/
theorem solve_lex_least (p s : List Char) (h : solve (.str p) = some (some s))
    (t : List Char) (ht : Completion p t) : LexLE s t :=
  (solve_completion h).2.2 t ht

/-! ## The fixture puzzle -/

theorem fixture_chain :
    forcedChain fixtureSteps (_stringToGrid fixturePuzzle) =
      some (_stringToGrid fixtureSolution) := by
  decide!

theorem fixture_valid : validate (.str fixturePuzzle) = .ok := by
  decide

theorem fixture_completion : Completion fixturePuzzle fixtureSolution := by
  decide!

theorem fixture_unique : ∀ t, Completion fixturePuzzle t → t = fixtureSolution :=
  unique_of_forcedChain fixture_valid fixtureSteps fixture_chain fixture_completion

theorem solve_fixture : solve (.str fixturePuzzle) = some (some fixtureSolution) :=
  solve_eq_of_unique fixture_valid fixture_completion fixture_unique

theorem solve_twoPuzzle : solve (.str twoPuzzle) = some (some fixtureSolution) := by
  decide!

theorem twoOther_completion : Completion twoPuzzle twoOther := by
  decide!

theorem solve_sound_witness :
    solve (.str fixturePuzzle) = some (some fixtureSolution)
    ∧ (fixtureSolution.length = 81 ∧ (∀ ch ∈ fixtureSolution, '1' ≤ ch ∧ ch ≤ '9') ∧
      (∀ k, k < 9 → ∀ d, '1' ≤ d → d ≤ '9' →
        (rowCells fixtureSolution k).count (some d) = 1 ∧
        (colCells fixtureSolution k).count (some d) = 1 ∧
        (regionCells fixtureSolution k).count (some d) = 1) ∧
      (∀ i, i < fixturePuzzle.length → fixturePuzzle[i]? ≠ some '.' →
        fixtureSolution[i]? = fixturePuzzle[i]?)) :=
  ⟨solve_fixture, solve_sound fixturePuzzle fixtureSolution solve_fixture⟩

theorem solve_unique_witness :
    validate (.str fixturePuzzle) = .ok
    ∧ Completion fixturePuzzle fixtureSolution
    ∧ (∀ t, Completion fixturePuzzle t → t = fixtureSolution)
    ∧ solve (.str fixturePuzzle) = some (some fixtureSolution) :=
  ⟨fixture_valid, fixture_completion, fixture_unique,
    solve_unique fixturePuzzle fixtureSolution fixture_valid fixture_completion fixture_unique⟩

theorem solve_lex_least_witness :
    solve (.str twoPuzzle) = some (some fixtureSolution)
    ∧ Completion twoPuzzle twoOther
    ∧ LexLE fixtureSolution twoOther :=
  ⟨solve_twoPuzzle, twoOther_completion,
    solve_lex_least twoPuzzle fixtureSolution solve_twoPuzzle twoOther twoOther_completion⟩

/-! ## Placement checks on a cell that is already filled -/

theorem checkRow_true_iff (B : Builtins) (p : List Char) (row column value : JSVal)
    (r c : Nat) (v : Char) (hp : validate (.str p) = .ok)
    (hr : _normalizeRow B row = some r) (hc : _normalizeColumn B column = some c)
    (hv : _normalizeValue B value = some v) :
    checkRowPlacement B (.str p) row column value = true ↔
      ∀ c' < 9, c' ≠ c → p[r * 9 + c']? ≠ some v := by
  have hr9 := normalizeRow_lt B row r hr
  simp only [checkRowPlacement, normalizeInputs_eq B p row column value r c v hp hr hc hv]
  rw [ite_false_true_iff, any_range_eq_false]
  simp only [SIZE]
  refine forall₂_congr fun c' hc' => ?_
  by_cases hne : c' = c
  · simp [hne]
  · simp [hne, cell_setCell, cell_stringToGrid p r c' hr9 hc']

theorem checkCol_true_iff (B : Builtins) (p : List Char) (row column value : JSVal)
    (r c : Nat) (v : Char) (hp : validate (.str p) = .ok)
    (hr : _normalizeRow B row = some r) (hc : _normalizeColumn B column = some c)
    (hv : _normalizeValue B value = some v) :
    checkColPlacement B (.str p) row column value = true ↔
      ∀ r' < 9, r' ≠ r → p[r' * 9 + c]? ≠ some v := by
  have hc9 := normalizeColumn_lt B column c hc
  simp only [checkColPlacement, normalizeInputs_eq B p row column value r c v hp hr hc hv]
  rw [ite_false_true_iff, any_range_eq_false]
  simp only [SIZE]
  refine forall₂_congr fun r' hr' => ?_
  by_cases hne : r' = r
  · simp [hne]
  · simp [hne, cell_setCell, cell_stringToGrid p r' c hr' hc9]

theorem checkRegion_true_iff (B : Builtins) (p : List Char) (row column value : JSVal)
    (r c : Nat) (v : Char) (hp : validate (.str p) = .ok)
    (hr : _normalizeRow B row = some r) (hc : _normalizeColumn B column = some c)
    (hv : _normalizeValue B value = some v) :
    checkRegionPlacement B (.str p) row column value = true ↔
      ∀ r' c', r' < 9 → c' < 9 → r' / 3 = r / 3 → c' / 3 = c / 3 → (r', c') ≠ (r, c) →
        p[r' * 9 + c']? ≠ some v := by
  have hr9 := normalizeRow_lt B row r hr
  have hc9 := normalizeColumn_lt B column c hc
  simp only [checkRegionPlacement, normalizeInputs_eq B p row column value r c v hp hr hc hv]
  rw [ite_false_true_iff, any_any_range_eq_false]
  simp only [SUBGRID]
  constructor
  · intro h r' c' hr' hc' h1 h2 hne
    have := h (r' - r / 3 * 3) (by omega) (c' - c / 3 * 3) (by omega)
    have e1 : r / 3 * 3 + (r' - r / 3 * 3) = r' := by omega
    have e2 : c / 3 * 3 + (c' - c / 3 * 3) = c' := by omega
    rw [e1, e2] at this
    have hne' : ¬ (r' = r ∧ c' = c) := fun h => hne (by rw [h.1, h.2])
    have hor : (r' != r || c' != c) = true := by
      by_cases hrr : r' = r
      · have : c' ≠ c := fun hcc => hne' ⟨hrr, hcc⟩
        simp [this]
      · simp [hrr]
    rw [cell_setCell, hor, if_neg (fun h => hne' ⟨h.1, h.2.1⟩),
      cell_stringToGrid p r' c' hr' hc'] at this
    simpa using this
  · intro h dr hdr dc hdc
    by_cases heq : r / 3 * 3 + dr = r ∧ c / 3 * 3 + dc = c
    · simp [heq.1, heq.2]
    · have hne : (r / 3 * 3 + dr, c / 3 * 3 + dc) ≠ (r, c) := by
        intro e; simp only [Prod.mk.injEq] at e; exact heq e
      have := h (r / 3 * 3 + dr) (c / 3 * 3 + dc) (by omega) (by omega) (by omega) (by omega) hne
      rw [cell_setCell, if_neg (fun h => heq ⟨h.1, h.2.1⟩),
        cell_stringToGrid p _ _ (by omega) (by omega)]
      simp [this]

/-- C11, counterexample: on the board of 81 nines the cell A1 holds `'9'`, yet
`checkRowPlacement` of `'9'` at A1 returns `false`, because the other cells of
the row hold `'9'` too. -/
theorem selfCheck_counterexample :
    validate (.str allNines) = .ok
    ∧ allNines[0 * 9 + 0]? = some '9'
    ∧ _normalizeRow asciiBuiltins (.str ['A']) = some 0
    ∧ _normalizeColumn asciiBuiltins (.str ['1']) = some 0
    ∧ _normalizeValue asciiBuiltins (.str ['9']) = some '9'
    ∧ checkRowPlacement asciiBuiltins (.str allNines) (.str ['A']) (.str ['1'])
        (.str ['9']) = false := by
  decide

/-- C11, amended: on a valid puzzle string `p` whose cell `(r, c)` holds the
digit `d`, checking `d` at `(r, c)` returns `true` for all three check functions
exactly when `d` sits in no other cell of the row, the column and the 3x3 region
of `(r, c)`: the cell itself never counts as a conflict. -/
theorem selfCheck_iff (B : Builtins) (p : List Char) (row column value : JSVal)
    (r c : Nat) (d : Char) (hp : validate (.str p) = .ok)
    (hr : _normalizeRow B row = some r) (hc : _normalizeColumn B column = some c)
    (hv : _normalizeValue B value = some d) (_ : p[r * 9 + c]? = some d) :
    (checkRowPlacement B (.str p) row column value = true
      ∧ checkColPlacement B (.str p) row column value = true
      ∧ checkRegionPlacement B (.str p) row column value = true) ↔
    ∀ r' c', r' < 9 → c' < 9 → (r', c') ≠ (r, c) → Related r c r' c' →
      p[r' * 9 + c']? ≠ some d := by
  have hr9 := normalizeRow_lt B row r hr
  have hc9 := normalizeColumn_lt B column c hc
  rw [checkRow_true_iff B p row column value r c d hp hr hc hv,
    checkCol_true_iff B p row column value r c d hp hr hc hv,
    checkRegion_true_iff B p row column value r c d hp hr hc hv]
  constructor
  · rintro ⟨hrow, hcol, hreg⟩ r' c' hr' hc' hne hrel
    rcases hrel with e | e | ⟨e1, e2⟩
    · subst e
      exact hrow c' hc' (fun e => hne (by rw [e]))
    · subst e
      exact hcol r' hr' (fun e => hne (by rw [e]))
    · exact hreg r' c' hr' hc' e1 e2 hne
  · intro h
    refine ⟨?_, ?_, ?_⟩
    · intro c' hc' hne
      exact h r c' hr9 hc' (fun e => hne (by simpa using e)) (Or.inl rfl)
    · intro r' hr' hne
      exact h r' c hr' hc9 (fun e => hne (by simpa using e)) (Or.inr (Or.inl rfl))
    · intro r' c' hr' hc' e1 e2 hne
      exact h r' c' hr' hc' hne (Or.inr (Or.inr ⟨e1, e2⟩))

theorem selfCheck_iff_witness :
    validate (.str fixturePuzzle) = .ok
    ∧ _normalizeRow asciiBuiltins (.str ['A']) = some 0
    ∧ _normalizeColumn asciiBuiltins (.str ['1']) = some 0
    ∧ _normalizeValue asciiBuiltins (.str ['1']) = some '1'
    ∧ fixturePuzzle[0 * 9 + 0]? = some '1'
    ∧ ((checkRowPlacement asciiBuiltins (.str fixturePuzzle) (.str ['A']) (.str ['1'])
          (.str ['1']) = true
        ∧ checkColPlacement asciiBuiltins (.str fixturePuzzle) (.str ['A']) (.str ['1'])
          (.str ['1']) = true
        ∧ checkRegionPlacement asciiBuiltins (.str fixturePuzzle) (.str ['A']) (.str ['1'])
          (.str ['1']) = true) ↔
      ∀ r' c', r' < 9 → c' < 9 → (r', c') ≠ (0, 0) → Related 0 0 r' c' →
        fixturePuzzle[r' * 9 + c']? ≠ some '1') :=
  ⟨by decide, by decide, by decide, by decide, by decide,
    selfCheck_iff asciiBuiltins fixturePuzzle (.str ['A']) (.str ['1']) (.str ['1']) 0 0 '1'
      (by decide) (by decide) (by decide) (by decide) (by decide)⟩

/-! ## Inputs that do not normalise -/

theorem normalizeValue_eq_none (B : Builtins) (value : JSVal)
    (h : ¬ ∃ ch, B.toStr value = [ch] ∧ '1' ≤ ch ∧ ch ≤ '9') :
    _normalizeValue B value = none := by
  unfold _normalizeValue
  split
  · rename_i ch hch
    rw [if_neg (fun hd => h ⟨ch, hch, hd⟩)]
  · rfl

theorem normalizeInputs_eq_none (B : Builtins) (puzzleString row column value : JSVal)
    (h : validate puzzleString ≠ .ok ∨ _normalizeRow B row = none ∨
      _normalizeColumn B column = none ∨
      ¬ ∃ ch, B.toStr value = [ch] ∧ '1' ≤ ch ∧ ch ≤ '9') :
    _normalizeInputs B puzzleString row column value = none := by
  cases puzzleString with
  | str s =>
    unfold _normalizeInputs
    simp only
    split_ifs with hvalid
    · rcases h with h | h | h | h
      · exfalso
        apply h
        cases hv : validate (.str s) with
        | ok => rfl
        | fail e => rw [hv] at hvalid; simp [Validation.valid] at hvalid
      · rw [h]
      · rw [h]
        cases _normalizeRow B row <;> rfl
      · rw [normalizeValue_eq_none B value h]
        cases _normalizeRow B row <;> cases _normalizeColumn B column <;> rfl
    · rfl
  | num n => rfl
  | other a => rfl

/-- On a value whose string conversion returns: when the puzzle string fails
`validate`, or the row or the column does not normalise, or `String(value)` is
not a single character `'1'..'9'`, each of the three check functions returns
the boolean `false`. -/
theorem checks_false_of_bad_input (B : Builtins) (puzzleString row column value : JSVal)
    (h : validate puzzleString ≠ .ok ∨ _normalizeRow B row = none ∨
      _normalizeColumn B column = none ∨
      ¬ ∃ ch, B.toStr value = [ch] ∧ '1' ≤ ch ∧ ch ≤ '9') :
    checkRowPlacement B puzzleString row column value = false
    ∧ checkColPlacement B puzzleString row column value = false
    ∧ checkRegionPlacement B puzzleString row column value = false := by
  have hnone := normalizeInputs_eq_none B puzzleString row column value h
  simp [checkRowPlacement, checkColPlacement, checkRegionPlacement, hnone]

theorem checks_false_of_bad_input_witness :
    (validate (.str fixturePuzzle) ≠ .ok ∨ _normalizeRow asciiBuiltins (.str ['Z']) = none ∨
      _normalizeColumn asciiBuiltins (.str ['9']) = none ∨
      ¬ ∃ ch, asciiBuiltins.toStr (.str ['2']) = [ch] ∧ '1' ≤ ch ∧ ch ≤ '9')
    ∧ (checkRowPlacement asciiBuiltins (.str fixturePuzzle) (.str ['Z']) (.str ['9'])
        (.str ['2']) = false
      ∧ checkColPlacement asciiBuiltins (.str fixturePuzzle) (.str ['Z']) (.str ['9'])
        (.str ['2']) = false
      ∧ checkRegionPlacement asciiBuiltins (.str fixturePuzzle) (.str ['Z']) (.str ['9'])
        (.str ['2']) = false) :=
  ⟨Or.inr (Or.inl (by decide)),
    checks_false_of_bad_input asciiBuiltins (.str fixturePuzzle) (.str ['Z']) (.str ['9'])
      (.str ['2']) (Or.inr (Or.inl (by decide)))⟩

/-! ## Boards with clashing givens -/

theorem not_consistent_of_clash (p : List Char) (r c r' c' : Nat) (d : Char)
    (hr : r < 9) (hc : c < 9) (hr' : r' < 9) (hc' : c' < 9) (hne : (r, c) ≠ (r', c'))
    (hrel : Related r c r' c') (hd : '1' ≤ d ∧ d ≤ '9')
    (h1 : p[r * 9 + c]? = some d) (h2 : p[r' * 9 + c']? = some d) :
    ¬ Consistent (_stringToGrid p) := by
  intro hcons
  have hdot : d ≠ '.' := by
    rintro rfl
    exact absurd hd.1 (by decide)
  exact hcons r c r' c' d hr hc hr' hc' hne hrel hdot
    (by rw [cell_stringToGrid p r c hr hc]; exact h1)
    (by rw [cell_stringToGrid p r' c' hr' hc']; exact h2)

/-- C13: a well-formed puzzle string in which a digit sits in two different
cells of one row, one column or one 3x3 region fails `_isInitialBoardValid`, so
`solve` returns `null` without starting the search. -/
theorem solve_contradictory (p : List Char) (r c r' c' : Nat) (d : Char)
    (hp : validate (.str p) = .ok)
    (hr : r < 9) (hc : c < 9) (hr' : r' < 9) (hc' : c' < 9) (hne : (r, c) ≠ (r', c'))
    (hrel : Related r c r' c') (hd : '1' ≤ d ∧ d ≤ '9')
    (h1 : p[r * 9 + c]? = some d) (h2 : p[r' * 9 + c']? = some d) :
    (_isInitialBoardValid (_stringToGrid p)).1 = false ∧ solve (.str p) = some none := by
  have hncons := not_consistent_of_clash p r c r' c' d hr hc hr' hc' hne hrel hd h1 h2
  constructor
  · have hinit := isInitialBoardValid_spec (Is9x9_stringToGrid p ((validate_eq_ok p).1 hp).1)
    cases hb : (_isInitialBoardValid (_stringToGrid p)).1 with
    | false => rfl
    | true => exact absurd (hinit.2.1 hb) hncons
  · rcases solve_valid p hp with ⟨-, h⟩ | ⟨hcons, -⟩
    · exact h
    · exact absurd hcons hncons

theorem solve_contradictory_witness :
    validate (.str allNines) = .ok
    ∧ allNines[0 * 9 + 0]? = some '9' ∧ allNines[0 * 9 + 1]? = some '9'
    ∧ ((_isInitialBoardValid (_stringToGrid allNines)).1 = false
      ∧ solve (.str allNines) = some none) :=
  ⟨by decide, by decide, by decide,
    solve_contradictory allNines 0 0 0 1 '9' (by decide) (by decide) (by decide) (by decide)
      (by decide) (by decide) (Or.inl rfl) (by decide) (by decide) (by decide)⟩

/-- The string of the unit test has 161 characters: `validate` rejects its
length, and `solve` returns `null` for that reason. -/
theorem solve_unitTestNines :
    unitTestNines.length = 161
    ∧ validate (.str unitTestNines) = .fail "Expected puzzle to be 81 characters long"
    ∧ solve (.str unitTestNines) = some none := by
  refine ⟨by decide!, by decide!, solve_invalid _ (by decide!)⟩

/-! ## solve on its own output, and the round trip through the grid -/

theorem completion_self {p s : List Char} (h : Completion p s) : Completion s s :=
  ⟨h.1, h.2.1, fun _ _ _ => rfl, h.2.2.2⟩

theorem completion_unique_of_full {s t : List Char} (hs : Completion s s)
    (ht : Completion s t) : t = s := by
  apply List.ext_getElem?
  intro i
  by_cases hi : i < 81
  · have hlt : i < s.length := by rw [hs.1]; exact hi
    apply ht.2.2.1 i hlt
    rw [List.getElem?_eq_getElem hlt]
    intro e
    have := (hs.2.1 s[i] (List.getElem_mem hlt)).1
    rw [Option.some.inj e] at this
    exact absurd this (by decide)
  · rw [List.getElem?_eq_none (by rw [ht.1]; omega),
      List.getElem?_eq_none (by rw [hs.1]; omega)]

/-- C14: the string `s` that `solve` returns for `p` passes `validate` and is
solved to itself, so `solve` applied to its own output gives that output. -/
theorem solve_idempotent (p s : List Char) (h : solve (.str p) = some (some s)) :
    validate (.str s) = .ok ∧ solve (.str s) = some (some s) := by
  have hcomp := (solve_completion h).2.1
  have hself := completion_self hcomp
  have hvalid := validate_of_completion hself
  exact ⟨hvalid, solve_eq_of_unique hvalid hself
    (fun t ht => completion_unique_of_full hself ht)⟩

theorem solve_idempotent_witness :
    solve (.str fixturePuzzle) = some (some fixtureSolution)
    ∧ (validate (.str fixtureSolution) = .ok
      ∧ solve (.str fixtureSolution) = some (some fixtureSolution)) :=
  ⟨solve_fixture, solve_idempotent fixturePuzzle fixtureSolution solve_fixture⟩

/-- C15: for a string `s` of 81 characters, `_stringToGrid s` has exactly nine
rows of exactly nine cells, its cell `(r, c)` is `s[r*9 + c]`, and
`_gridToString` gives `s` back. -/
theorem string_grid_roundtrip (s : List Char) (hs : validate (.str s) = .ok) :
    (_stringToGrid s).length = 9
    ∧ (∀ cells ∈ _stringToGrid s, cells.length = 9)
    ∧ (∀ r c, r < 9 → c < 9 → cell (_stringToGrid s) r c = s[r * 9 + c]?)
    ∧ (∀ r c, r < 9 → c < 9 → ∃ ch, s[r * 9 + c]? = some ch)
    ∧ _gridToString (_stringToGrid s) = s := by
  have hlen := ((validate_eq_ok s).1 hs).1
  have h9 := Is9x9_stringToGrid s hlen
  refine ⟨h9.1, h9.2, fun r c hr hc => cell_stringToGrid s r c hr hc, ?_,
    gridToString_stringToGrid s hlen⟩
  intro r c hr hc
  have hlt : r * 9 + c < s.length := by rw [hlen]; omega
  exact ⟨s[r * 9 + c], List.getElem?_eq_getElem hlt⟩

theorem string_grid_roundtrip_witness :
    validate (.str fixturePuzzle) = .ok
    ∧ ((_stringToGrid fixturePuzzle).length = 9
      ∧ (∀ cells ∈ _stringToGrid fixturePuzzle, cells.length = 9)
      ∧ (∀ r c, r < 9 → c < 9 →
          cell (_stringToGrid fixturePuzzle) r c = fixturePuzzle[r * 9 + c]?)
      ∧ (∀ r c, r < 9 → c < 9 → ∃ ch, fixturePuzzle[r * 9 + c]? = some ch)
      ∧ _gridToString (_stringToGrid fixturePuzzle) = fixturePuzzle) :=
  ⟨fixture_valid, string_grid_roundtrip fixturePuzzle fixture_valid⟩

/-! ## The search: what it leaves behind, and that it returns -/

theorem tryCandidates_frame (solveRec : Grid → Option (Bool × Grid))
    (hrec : ∀ g, Is9x9 g → ∀ b g', solveRec g = some (b, g') →
      Is9x9 g' ∧ (b = false → g' = g) ∧ (b = true → Extends g g'))
    (g : Grid) (hg : Is9x9 g) (r c : Nat) (hcell : cell g r c = some '.')
    (nums : List Nat) :
    ∀ b g', tryCandidates solveRec r c nums g = some (b, g') →
      Is9x9 g' ∧ (b = false → g' = g) ∧ (b = true → Extends g g') := by
  induction nums with
  | nil =>
    intro b g' h
    simp only [tryCandidates, Option.some.injEq, Prod.mk.injEq] at h
    obtain ⟨rfl, rfl⟩ := h
    exact ⟨hg, fun _ => rfl, fun hb => by simp at hb⟩
  | cons a rest ih =>
    intro b g' h
    rw [tryCandidates] at h
    split_ifs at h with hsafe
    · cases hcall : solveRec (setCell g r c (digitChar a)) with
      | none => rw [hcall] at h; simp at h
      | some res =>
        obtain ⟨b1, g1⟩ := res
        rw [hcall] at h
        have hspec := hrec _ (Is9x9_setCell hg r c _) b1 g1 hcall
        cases b1 with
        | true =>
          simp only [Option.some.injEq, Prod.mk.injEq] at h
          obtain ⟨rfl, rfl⟩ := h
          exact ⟨hspec.1, fun hb => by simp at hb,
            fun _ => Extends_trans (Extends_setCell hcell _) (hspec.2.2 rfl)⟩
        | false =>
          simp only at h
          rw [hspec.2.1 rfl, setCell_setCell, setCell_self g r c '.' hcell] at h
          exact ih b g' h
    · exact ih b g' h

theorem solveBacktracking_frame (fuel : Nat) :
    ∀ g, Is9x9 g → ∀ b g', _solveBacktracking fuel g = some (b, g') →
      Is9x9 g' ∧ (b = false → g' = g) ∧ (b = true → Extends g g') := by
  induction fuel with
  | zero => intro g _ b g' h; simp [_solveBacktracking] at h
  | succ fuel ih =>
    intro g hg b g' h
    rw [_solveBacktracking] at h
    cases hfe : firstEmpty g with
    | none =>
      rw [hfe] at h
      simp only [Option.some.injEq, Prod.mk.injEq] at h
      obtain ⟨rfl, rfl⟩ := h
      exact ⟨hg, fun hb => by simp at hb, fun _ => Extends_refl g⟩
    | some rc =>
      obtain ⟨r, c⟩ := rc
      rw [hfe] at h
      exact tryCandidates_frame _ ih g hg r c (firstEmpty_some hfe).2.2.1 candidates b g' h

theorem tryCandidates_returns (fuel : Nat)
    (ih : ∀ g, Is9x9 g → emptyCount g < fuel → ∃ res, _solveBacktracking fuel g = some res)
    (g : Grid) (hg : Is9x9 g) (hcount : emptyCount g < fuel + 1) (r c : Nat)
    (hr : r < 9) (hc : c < 9) (hcell : cell g r c = some '.')
    (nums : List Nat) (hnums : ∀ n ∈ nums, 1 ≤ n ∧ n ≤ 9) :
    ∃ res, tryCandidates (_solveBacktracking fuel) r c nums g = some res := by
  induction nums with
  | nil => exact ⟨_, rfl⟩
  | cons a rest ihrest =>
    have ha := hnums a (List.mem_cons_self _ _)
    have hrest := ihrest fun n hn => hnums n (List.mem_cons_of_mem _ hn)
    rw [tryCandidates]
    split_ifs with hsafe
    · have hdot := (digitChar_props a ha.1 ha.2).2.2
      have hcount1 : emptyCount (setCell g r c (digitChar a)) < fuel := by
        have := emptyCount_setCell hg hr hc hcell (digitChar a) hdot
        omega
      obtain ⟨⟨b1, g1⟩, hcall⟩ := ih _ (Is9x9_setCell hg r c _) hcount1
      rw [hcall]
      have hspec := solveBacktracking_frame fuel _ (Is9x9_setCell hg r c _) b1 g1 hcall
      cases b1 with
      | true => exact ⟨_, rfl⟩
      | false =>
        simp only
        rw [hspec.2.1 rfl, setCell_setCell, setCell_self g r c '.' hcell]
        exact hrest
    · exact hrest

theorem solveBacktracking_returns (fuel : Nat) :
    ∀ g, Is9x9 g → emptyCount g < fuel → ∃ res, _solveBacktracking fuel g = some res := by
  induction fuel with
  | zero => intro g _ h; exact absurd h (Nat.not_lt_zero _)
  | succ fuel ih =>
    intro g hg hcount
    rw [_solveBacktracking]
    cases hfe : firstEmpty g with
    | none => exact ⟨_, rfl⟩
    | some rc =>
      obtain ⟨r, c⟩ := rc
      obtain ⟨hr, hc, hcell, -⟩ := firstEmpty_some hfe
      exact tryCandidates_returns fuel ih g hg hcount r c hr hc hcell candidates
        (fun n hn => (mem_candidates n).1 hn)

theorem tryCandidates_mono (rec1 rec2 : Grid → Option (Bool × Grid))
    (h : ∀ g res, rec1 g = some res → rec2 g = some res) (r c : Nat) (nums : List Nat) :
    ∀ g res, tryCandidates rec1 r c nums g = some res →
      tryCandidates rec2 r c nums g = some res := by
  induction nums with
  | nil => intro g res hres; simpa [tryCandidates] using hres
  | cons a rest ih =>
    intro g res hres
    rw [tryCandidates] at hres ⊢
    split_ifs at hres ⊢ with hsafe
    · cases hcall : rec1 (setCell g r c (digitChar a)) with
      | none => rw [hcall] at hres; simp at hres
      | some res1 =>
        obtain ⟨b1, g1⟩ := res1
        rw [hcall] at hres
        rw [h _ _ hcall]
        cases b1 with
        | true => exact hres
        | false => exact ih _ _ hres
    · exact ih _ _ hres

theorem solveBacktracking_mono (fuel : Nat) :
    ∀ g res, _solveBacktracking fuel g = some res →
      _solveBacktracking (fuel + 1) g = some res := by
  induction fuel with
  | zero => intro g res h; simp [_solveBacktracking] at h
  | succ fuel ih =>
    intro g res h
    rw [_solveBacktracking] at h ⊢
    cases hfe : firstEmpty g with
    | none => rw [hfe] at h; exact h
    | some rc =>
      obtain ⟨r, c⟩ := rc
      rw [hfe] at h
      exact tryCandidates_mono _ _ ih r c candidates g res h

theorem solveBacktracking_mono_le {fuel fuel' : Nat} (hle : fuel ≤ fuel') (g : Grid)
    (res : Bool × Grid) (h : _solveBacktracking fuel g = some res) :
    _solveBacktracking fuel' g = some res := by
  induction hle with
  | refl => exact h
  | step _ ih => exact solveBacktracking_mono _ g res ih

theorem tryCandidates_onGridsWith (solveRec : Grid → Option (Bool × Grid))
    (hrec : ∀ g, Is9x9 g → ∀ b g', solveRec g = some (b, g') →
      Is9x9 g' ∧ (b = false → g' = g) ∧ (b = true → Extends g g'))
    (g : Grid) (hg : Is9x9 g) (r c : Nat) (hr : r < 9) (hc : c < 9)
    (hcell : cell g r c = some '.') (nums : List Nat) (hnums : ∀ n ∈ nums, 1 ≤ n ∧ n ≤ 9) :
    tryCandidates (onGridsWith (emptyCount g - 1) solveRec) r c nums g =
      tryCandidates solveRec r c nums g := by
  induction nums with
  | nil => rfl
  | cons a rest ih =>
    have ha := hnums a (List.mem_cons_self _ _)
    have hrest := ih fun n hn => hnums n (List.mem_cons_of_mem _ hn)
    rw [tryCandidates, tryCandidates]
    split_ifs with hsafe
    · have hdot := (digitChar_props a ha.1 ha.2).2.2
      have hcount := emptyCount_setCell hg hr hc hcell (digitChar a) hdot
      have hguard : onGridsWith (emptyCount g - 1) solveRec (setCell g r c (digitChar a)) =
          solveRec (setCell g r c (digitChar a)) := by
        unfold onGridsWith
        rw [if_pos (by omega)]
      rw [hguard]
      cases hcall : solveRec (setCell g r c (digitChar a)) with
      | none => rfl
      | some res =>
        obtain ⟨b1, g1⟩ := res
        cases b1 with
        | true => rfl
        | false =>
          simp only
          rw [(hrec _ (Is9x9_setCell hg r c _) false g1 hcall).2.1 rfl, setCell_setCell,
            setCell_self g r c '.' hcell]
          exact hrest
    · exact hrest

/-- C19: on a 9x9 grid over `'1'..'9'` and `'.'` the search returns within
`emptyCount g` nested recursive calls, at most 81, and more fuel does not change
its result; every recursive call is made on a grid with exactly one fewer empty
cell than the caller's grid (restricting the recursive call to such grids
changes nothing); and `solve` returns on every input. -/
theorem backtracking_terminates (g : Grid) (hg : GridOK g) :
    emptyCount g ≤ 81
    ∧ (∃ res, _solveBacktracking (emptyCount g + 1) g = some res
        ∧ ∀ fuel, emptyCount g < fuel → _solveBacktracking fuel g = some res)
    ∧ (∀ r c, firstEmpty g = some (r, c) →
        0 < emptyCount g
        ∧ (∀ n ∈ candidates, emptyCount (setCell g r c (digitChar n)) + 1 = emptyCount g)
        ∧ ∀ fuel, _solveBacktracking (fuel + 1) g =
            tryCandidates (onGridsWith (emptyCount g - 1) (_solveBacktracking fuel)) r c
              candidates g)
    ∧ (∀ x, ∃ result, solve x = some result) := by
  refine ⟨emptyCount_le g, ?_, ?_, solve_returns⟩
  · obtain ⟨res, hres⟩ := solveBacktracking_returns (emptyCount g + 1) g hg.1 (Nat.lt_succ_self _)
    exact ⟨res, hres, fun fuel hfuel => solveBacktracking_mono_le hfuel g res hres⟩
  · intro r c hfe
    obtain ⟨hr, hc, hcell, -⟩ := firstEmpty_some hfe
    have hstep : ∀ n ∈ candidates,
        emptyCount (setCell g r c (digitChar n)) + 1 = emptyCount g := by
      intro n hn
      have hn' := (mem_candidates n).1 hn
      exact (emptyCount_setCell hg.1 hr hc hcell _ (digitChar_props n hn'.1 hn'.2).2.2).symm
    refine ⟨?_, hstep, ?_⟩
    · have := hstep 1 ((mem_candidates 1).2 ⟨le_refl 1, by decide⟩)
      omega
    · intro fuel
      rw [_solveBacktracking, hfe]
      exact (tryCandidates_onGridsWith _ (solveBacktracking_frame fuel) g hg.1 r c hr hc hcell
        candidates (fun n hn => (mem_candidates n).1 hn)).symm

theorem backtracking_terminates_witness :
    GridOK (_stringToGrid fixturePuzzle)
    ∧ emptyCount (_stringToGrid fixturePuzzle) ≤ 81
    ∧ (∃ res, _solveBacktracking (emptyCount (_stringToGrid fixturePuzzle) + 1)
          (_stringToGrid fixturePuzzle) = some res
        ∧ ∀ fuel, emptyCount (_stringToGrid fixturePuzzle) < fuel →
          _solveBacktracking fuel (_stringToGrid fixturePuzzle) = some res)
    ∧ (∀ r c, firstEmpty (_stringToGrid fixturePuzzle) = some (r, c) →
        0 < emptyCount (_stringToGrid fixturePuzzle)
        ∧ (∀ n ∈ candidates,
            emptyCount (setCell (_stringToGrid fixturePuzzle) r c (digitChar n)) + 1 =
              emptyCount (_stringToGrid fixturePuzzle))
        ∧ ∀ fuel, _solveBacktracking (fuel + 1) (_stringToGrid fixturePuzzle) =
            tryCandidates (onGridsWith (emptyCount (_stringToGrid fixturePuzzle) - 1)
              (_solveBacktracking fuel)) r c candidates (_stringToGrid fixturePuzzle))
    ∧ (∀ x, ∃ result, solve x = some result) :=
  ⟨GridOK_stringToGrid _ fixture_valid,
    backtracking_terminates (_stringToGrid fixturePuzzle) (GridOK_stringToGrid _ fixture_valid)⟩

/-- C20: on a 9x9 grid the search returns, and whenever it returns `false` the
grid it leaves behind equals the grid it was given, while after `true` every
cell that was not `'.'` still holds its value. -/
theorem backtracking_frame (g : Grid) (hg : Is9x9 g) :
    (∃ res, _solveBacktracking (emptyCount g + 1) g = some res)
    ∧ ∀ fuel b g', _solveBacktracking fuel g = some (b, g') →
        (b = false → g' = g)
        ∧ (b = true → ∀ r c v, r < 9 → c < 9 → v ≠ '.' → cell g r c = some v →
            cell g' r c = some v) := by
  refine ⟨solveBacktracking_returns _ g hg (Nat.lt_succ_self _), ?_⟩
  intro fuel b g' h
  have hspec := solveBacktracking_frame fuel g hg b g' h
  exact ⟨hspec.2.1, fun hb r c v hr hc hv hcell => hspec.2.2 hb r c v hr hc hv hcell⟩

theorem backtracking_frame_witness :
    Is9x9 (_stringToGrid deadEndPuzzle)
    ∧ firstEmpty (_stringToGrid deadEndPuzzle) = some (0, 0)
    ∧ _isSafe (_stringToGrid deadEndPuzzle) 0 0 '1' = true
    ∧ _solveBacktracking 2 (setCell (_stringToGrid deadEndPuzzle) 0 0 '1') =
        some (false, setCell (_stringToGrid deadEndPuzzle) 0 0 '1')
    ∧ _solveBacktracking (emptyCount (_stringToGrid deadEndPuzzle) + 1)
        (_stringToGrid deadEndPuzzle) = some (false, _stringToGrid deadEndPuzzle)
    ∧ _solveBacktracking (emptyCount (_stringToGrid twoPuzzle) + 1) (_stringToGrid twoPuzzle) =
        some (true, _stringToGrid fixtureSolution)
    ∧ ((∃ res, _solveBacktracking (emptyCount (_stringToGrid deadEndPuzzle) + 1)
          (_stringToGrid deadEndPuzzle) = some res)
      ∧ ∀ fuel b g', _solveBacktracking fuel (_stringToGrid deadEndPuzzle) = some (b, g') →
          (b = false → g' = _stringToGrid deadEndPuzzle)
          ∧ (b = true → ∀ r c v, r < 9 → c < 9 → v ≠ '.' →
              cell (_stringToGrid deadEndPuzzle) r c = some v → cell g' r c = some v))
    ∧ ((∃ res, _solveBacktracking (emptyCount (_stringToGrid twoPuzzle) + 1)
          (_stringToGrid twoPuzzle) = some res)
      ∧ ∀ fuel b g', _solveBacktracking fuel (_stringToGrid twoPuzzle) = some (b, g') →
          (b = false → g' = _stringToGrid twoPuzzle)
          ∧ (b = true → ∀ r c v, r < 9 → c < 9 → v ≠ '.' →
              cell (_stringToGrid twoPuzzle) r c = some v → cell g' r c = some v)) :=
  ⟨Is9x9_stringToGrid deadEndPuzzle (by decide), by decide!, by decide!, by decide!, by decide!,
    by decide!,
    backtracking_frame (_stringToGrid deadEndPuzzle)
      (Is9x9_stringToGrid deadEndPuzzle (by decide)),
    backtracking_frame (_stringToGrid twoPuzzle) (Is9x9_stringToGrid twoPuzzle (by decide))⟩

/-! ## The built-ins used for evaluation conform -/

theorem isDigit_iff (ch : Char) : ch.isDigit = true ↔ 48 ≤ ch.toNat ∧ ch.toNat ≤ 57 := by
  simp only [Char.isDigit, Bool.and_eq_true, decide_eq_true_eq]
  exact Iff.rfl

theorem isAlpha_iff (ch : Char) :
    ch.isAlpha = true ↔ (65 ≤ ch.toNat ∧ ch.toNat ≤ 90) ∨ (97 ≤ ch.toNat ∧ ch.toNat ≤ 122) := by
  simp only [Char.isAlpha, Char.isUpper, Char.isLower, Bool.or_eq_true, Bool.and_eq_true,
    decide_eq_true_eq]
  exact Iff.rfl

theorem decimalValue_some {s : List Char} {n : Nat} (h : decimalValue s = some n) :
    s ≠ [] ∧ ∀ ch ∈ s, 48 ≤ ch.toNat ∧ ch.toNat ≤ 57 := by
  unfold decimalValue at h
  split_ifs at h with hbad
  simp only [Bool.or_eq_true, List.isEmpty_iff, List.any_eq_true, Bool.not_eq_true',
    not_or, not_exists, not_and, Bool.not_eq_false] at hbad
  exact ⟨hbad.1, fun ch hch => (isDigit_iff ch).1 (hbad.2 ch hch)⟩

theorem decimalValue_singleton_letter (ch : Char) (h : ch.isAlpha = true) :
    decimalValue [ch] = none := by
  cases hd : decimalValue [ch] with
  | none => rfl
  | some n =>
    have := (decimalValue_some hd).2 ch (List.mem_singleton.2 rfl)
    rw [isAlpha_iff] at h
    omega

theorem decimalValue_minus (s : List Char) : decimalValue ('-' :: s) = none := by
  cases hd : decimalValue ('-' :: s) with
  | none => rfl
  | some m =>
    have := (decimalValue_some hd).2 '-' (List.mem_cons_self _ _)
    exact absurd this (by decide)

theorem hostBuiltins_conforms : hostBuiltins.Conforms where
  trim_eq _ := rfl
  upper_ascii s hs := by
    show s.map _ = s.map _
    apply List.map_congr_left
    intro ch hch
    have hne : ch ≠ dotlessI := by
      intro e
      have := hs ch hch
      rw [e] at this
      exact absurd this (by decide)
    rw [if_neg hne]
  upper_dotless := by decide
  number_letter ch hch := by
    have hnone := decimalValue_singleton_letter ch hch
    have htail : decimalValue ([ch] : List Char).tail = none := rfl
    simp only [hostBuiltins, hnone, htail]
  number_digits s n hs _ := by
    simp only [hostBuiltins, hs]
  number_large s n hs hn := by
    right
    exact ⟨n, by simp only [hostBuiltins, hs], by exact_mod_cast hn⟩
  number_minus s n hs _ := by
    simp [hostBuiltins, decimalValue_minus s, hs]
  number_minus_large s n hs hn := by
    right
    refine ⟨-(n : Int), by simp [hostBuiltins, decimalValue_minus s, hs], ?_⟩
    have : ((2 : Int) ^ 53) ≤ (n : Int) := by exact_mod_cast hn
    omega

/-! ## Coordinates given as strings -/

theorem normalizeNumber_nan : normalizeNumber (.num .nan) = none := rfl

theorem normalizeNumber_int (n : Int) : normalizeNumber (.num (.int n)) = indexOfInteger n := by
  unfold normalizeNumber indexOfInteger
  simp only [SIZE]
  by_cases h1 : 1 ≤ n ∧ n ≤ 9
  · simp [h1]
  · by_cases h0 : n = 0
    · subst h0; simp
    · have h2 : ¬ (0 ≤ n ∧ n < 9) := by omega
      have h1' : ¬ (1 ≤ n ∧ n ≤ ((9 : Nat) : Int)) := by simpa using h1
      have h2' : ¬ (0 ≤ n ∧ n < ((9 : Nat) : Int)) := by simpa using h2
      rw [if_neg h1', if_neg h2', if_neg h1, if_neg h0]

theorem normalizeNumber_far (x : JSNum)
    (h : x = .nonInt ∨ ∃ z : Int, x = .int z ∧ (2 ^ 53 ≤ z ∨ z ≤ -(2 ^ 53))) :
    normalizeNumber (.num x) = none := by
  rcases h with rfl | ⟨z, rfl, hz⟩
  · rfl
  · rw [normalizeNumber_int]
    unfold indexOfInteger
    have h9 : (9 : Int) < 2 ^ 53 := by norm_num
    rw [if_neg (by omega), if_neg (by omega)]

theorem normalizeRow_of_string (B : Builtins) (s : List Char) (hne : B.trim s ≠ [])
    (hup : ∀ ch, B.toUpperCase (B.trim s) = [ch] → ¬ (65 ≤ ch.toNat ∧ ch.toNat ≤ 73)) :
    _normalizeRow B (.str s) = normalizeNumber (.num (B.toNumber (B.trim s))) := by
  unfold _normalizeRow
  simp only
  rw [if_neg (by simpa [List.isEmpty_iff] using hne)]
  have hletter : (match B.toUpperCase (B.trim s) with
      | [ch] => if 65 ≤ ch.toNat ∧ ch.toNat ≤ 73 then some (ch.toNat - 65) else none
      | _ => (none : Option Nat)) = none := by
    split
    · rename_i ch hch
      rw [if_neg (hup ch hch)]
    · rfl
  rw [hletter]
  simp only
  cases B.toNumber (B.trim s) <;> rfl

theorem normalizeRow_of_letter (B : Builtins) (s : List Char) (ch : Char) (hne : B.trim s ≠ [])
    (hup : B.toUpperCase (B.trim s) = [ch]) (hch : 65 ≤ ch.toNat ∧ ch.toNat ≤ 73) :
    _normalizeRow B (.str s) = some (ch.toNat - 65) := by
  unfold _normalizeRow
  simp only
  rw [if_neg (by simpa [List.isEmpty_iff] using hne), hup]
  simp only
  rw [if_pos hch]

theorem normalizeRow_of_blank (B : Builtins) (s : List Char) (h : B.trim s = []) :
    _normalizeRow B (.str s) = none := by
  unfold _normalizeRow
  simp [h]

theorem normalizeColumn_of_string (B : Builtins) (s : List Char) (hne : B.trim s ≠ []) :
    _normalizeColumn B (.str s) = normalizeNumber (.num (B.toNumber (B.trim s))) := by
  unfold _normalizeColumn
  simp only
  rw [if_neg (by simpa [List.isEmpty_iff] using hne)]
  cases B.toNumber (B.trim s) <;> rfl

theorem trimSpaces_eq_self (s : List Char) (h : ∀ ch ∈ s, isTrimmed ch = false) :
    trimSpaces s = s := by
  have hdrop : ∀ l : List Char, (∀ ch ∈ l, isTrimmed ch = false) → l.dropWhile isTrimmed = l := by
    intro l hl
    cases l with
    | nil => rfl
    | cons a l => rw [List.dropWhile_cons, hl a (List.mem_cons_self _ _)]; rfl
  unfold trimSpaces
  rw [hdrop s h, hdrop s.reverse (fun ch hch => h ch (List.mem_reverse.1 hch)),
    List.reverse_reverse]

theorem isTrimmed_eq_false (ch : Char) (h : 33 ≤ ch.toNat ∧ ch.toNat ≤ 126) :
    isTrimmed ch = false := by
  unfold isTrimmed
  rw [Bool.or_eq_false_iff]
  constructor
  · rw [decide_eq_false_iff_not]
    intro hmem
    simp only [List.mem_cons, List.mem_singleton, List.not_mem_nil, or_false] at hmem
    omega
  · rw [Bool.and_eq_false_iff]
    left
    rw [decide_eq_false_iff_not]
    omega

theorem asciiUpper_of_not_lower (ch : Char) (h : ch.toNat < 97) : asciiUpper ch = ch := by
  unfold asciiUpper
  rw [if_neg]
  rintro ⟨h1, -⟩
  have : 97 ≤ ch.toNat := h1
  omega

/-! ## Row letters -/

theorem rowToIndex_ascii_letter (B : Builtins) (hB : B.Conforms) (s : List Char) (ch : Char)
    (hs : trimSpaces s = [ch]) (hch : ch.isAlpha = true) :
    rowToIndex B (.str s) =
      if 65 ≤ (asciiUpper ch).toNat ∧ (asciiUpper ch).toNat ≤ 73 then
        some ((asciiUpper ch).toNat - 65)
      else none := by
  have htrim : B.trim s = [ch] := by rw [hB.trim_eq, hs]
  have hne : B.trim s ≠ [] := by rw [htrim]; simp
  have hascii : ∀ x ∈ [ch], x.toNat < 128 := by
    intro x hx
    rw [List.mem_singleton.1 hx]
    have := (isAlpha_iff ch).1 hch
    omega
  have hup : B.toUpperCase (B.trim s) = [asciiUpper ch] := by
    rw [htrim, hB.upper_ascii [ch] hascii]; rfl
  unfold rowToIndex
  split_ifs with hrange
  · exact normalizeRow_of_letter B s _ hne hup hrange
  · rw [normalizeRow_of_string B s hne, htrim, hB.number_letter ch hch, normalizeNumber_nan]
    intro ch' hch'
    rw [hup] at hch'
    rw [← List.singleton_inj.1 hch']
    exact hrange

theorem rowToIndex_blank (B : Builtins) (hB : B.Conforms) (s : List Char)
    (hs : trimSpaces s = []) : rowToIndex B (.str s) = none :=
  normalizeRow_of_blank B s (by rw [hB.trim_eq, hs])

theorem rowToIndex_dotless (B : Builtins) (hB : B.Conforms) :
    rowToIndex B (.str [dotlessI]) = some 8 := by
  have htrim : B.trim [dotlessI] = [dotlessI] := by rw [hB.trim_eq]; decide
  have := normalizeRow_of_letter B [dotlessI] 'I' (by rw [htrim]; simp)
    (by rw [htrim, hB.upper_dotless]) (by decide)
  exact this

/-- C16, failing input: the one-letter string U+0131 (dotless i) is none of the
letters `A..I`, `a..i`, and `rowToIndex` returns the index 8 for it, because its
upper case is `I`. -/
theorem rowToIndex_dotlessI :
    trimSpaces [dotlessI] = [dotlessI]
    ∧ dotlessI ∉ "ABCDEFGHIabcdefghi".toList
    ∧ rowToIndex hostBuiltins (.str [dotlessI]) = some 8 :=
  ⟨by decide, by decide, rowToIndex_dotless hostBuiltins hostBuiltins_conforms⟩

/-! ## Numeric coordinates -/

theorem decimal_string_facts (B : Builtins) (hB : B.Conforms) (s : List Char)
    (hne : s ≠ []) (hchars : ∀ ch ∈ s, 45 ≤ ch.toNat ∧ ch.toNat ≤ 57) :
    B.trim s = s ∧ B.trim s ≠ [] ∧
      ∀ ch, B.toUpperCase (B.trim s) = [ch] → ¬ (65 ≤ ch.toNat ∧ ch.toNat ≤ 73) := by
  have htrim : B.trim s = s := by
    rw [hB.trim_eq]
    exact trimSpaces_eq_self s fun ch hch =>
      isTrimmed_eq_false ch (by have := hchars ch hch; omega)
  refine ⟨htrim, by rw [htrim]; exact hne, ?_⟩
  intro ch hup
  rw [htrim, hB.upper_ascii s (fun x hx => by have := hchars x hx; omega)] at hup
  have hmem : ch ∈ s.map asciiUpper := by rw [hup]; exact List.mem_singleton.2 rfl
  obtain ⟨x, hx, rfl⟩ := List.mem_map.1 hmem
  have := hchars x hx
  rw [asciiUpper_of_not_lower x (by omega)]
  omega

theorem indexOfInteger_far (n : Int) (h : 2 ^ 53 ≤ n ∨ n ≤ -(2 ^ 53)) :
    indexOfInteger n = none := by
  unfold indexOfInteger
  have h9 : (9 : Int) < 2 ^ 53 := by norm_num
  rw [if_neg (by omega), if_neg (by omega)]

theorem toNumber_decimal (B : Builtins) (hB : B.Conforms) (s : List Char) (n : Int)
    (h : IsDecimalOf s n) :
    s ≠ [] ∧ (∀ ch ∈ s, 45 ≤ ch.toNat ∧ ch.toNat ≤ 57) ∧
      normalizeNumber (.num (B.toNumber s)) = indexOfInteger n := by
  rcases h with ⟨h0, hval⟩ | ⟨h0, digits, rfl, hval⟩
  · obtain ⟨hne, hdig⟩ := decimalValue_some hval
    refine ⟨hne, fun ch hch => by have := hdig ch hch; omega, ?_⟩
    by_cases hsmall : n.toNat < 2 ^ 53
    · rw [hB.number_digits s _ hval hsmall, Int.toNat_of_nonneg h0, normalizeNumber_int]
    · have hbig : (2 : Int) ^ 53 ≤ n := by
        have : (2 : Nat) ^ 53 ≤ n.toNat := Nat.le_of_not_lt hsmall
        have h2 : ((2 ^ 53 : Nat) : Int) ≤ (n.toNat : Int) := by exact_mod_cast this
        rw [Int.toNat_of_nonneg h0] at h2
        exact_mod_cast h2
      rw [indexOfInteger_far n (Or.inl hbig)]
      apply normalizeNumber_far
      rcases hB.number_large s _ hval (Nat.le_of_not_lt hsmall) with e | ⟨z, e, hz⟩
      · exact Or.inl e
      · exact Or.inr ⟨z, e, Or.inl hz⟩
  · obtain ⟨hne, hdig⟩ := decimalValue_some hval
    refine ⟨by simp, ?_, ?_⟩
    · intro ch hch
      rcases List.mem_cons.1 hch with e | e
      · rw [e]; decide
      · have := hdig ch e; omega
    · have hneg : (((-n).toNat : Nat) : Int) = -n := Int.toNat_of_nonneg (by omega)
      by_cases hsmall : (-n).toNat < 2 ^ 53
      · rw [hB.number_minus digits _ hval hsmall, hneg, neg_neg, normalizeNumber_int]
      · have hbig : n ≤ -((2 : Int) ^ 53) := by
          have : (2 : Nat) ^ 53 ≤ (-n).toNat := Nat.le_of_not_lt hsmall
          have h2 : ((2 ^ 53 : Nat) : Int) ≤ ((-n).toNat : Int) := by exact_mod_cast this
          rw [hneg] at h2
          have h3 : ((2 ^ 53 : Nat) : Int) = (2 : Int) ^ 53 := by norm_num
          omega
        rw [indexOfInteger_far n (Or.inr hbig)]
        apply normalizeNumber_far
        rcases hB.number_minus_large digits _ hval (Nat.le_of_not_lt hsmall) with e | ⟨z, e, hz⟩
        · exact Or.inl e
        · exact Or.inr ⟨z, e, Or.inr hz⟩

/-- C17: for an integer `n`, given as a number or written in decimal digits,
`rowToIndex` and `columnToIndex` both return `n - 1` when `1 ≤ n ≤ 9`, `0` when
`n = 0` and `null` otherwise; every index returned is in `0..8`. -/
theorem numeric_coordinates (B : Builtins) (hB : B.Conforms) (n : Int) :
    (rowToIndex B (.num (.int n)) = indexOfInteger n
      ∧ columnToIndex B (.num (.int n)) = indexOfInteger n)
    ∧ (∀ s, IsDecimalOf s n →
        rowToIndex B (.str s) = indexOfInteger n ∧ columnToIndex B (.str s) = indexOfInteger n)
    ∧ ((1 ≤ n ∧ n ≤ 9 → indexOfInteger n = some (n - 1).toNat)
      ∧ (n = 0 → indexOfInteger n = some 0)
      ∧ (n < 0 ∨ 9 < n → indexOfInteger n = none))
    ∧ (∀ x k, rowToIndex B x = some k → k < 9)
    ∧ (∀ x k, columnToIndex B x = some k → k < 9) := by
  refine ⟨⟨normalizeNumber_int n, normalizeNumber_int n⟩, ?_, ⟨?_, ?_, ?_⟩,
    fun x k h => normalizeRow_lt B x k h, fun x k h => normalizeColumn_lt B x k h⟩
  · intro s hs
    obtain ⟨hne, hchars, hnum⟩ := toNumber_decimal B hB s n hs
    obtain ⟨htrim, hne', hup⟩ := decimal_string_facts B hB s hne hchars
    constructor
    · unfold rowToIndex
      rw [normalizeRow_of_string B s hne' hup, htrim, hnum]
    · unfold columnToIndex
      rw [normalizeColumn_of_string B s hne', htrim, hnum]
  · intro h; unfold indexOfInteger; rw [if_pos h]
  · rintro rfl; rfl
  · intro h
    unfold indexOfInteger
    rw [if_neg (by omega), if_neg (by omega)]

theorem numeric_coordinates_witness :
    hostBuiltins.Conforms
    ∧ IsDecimalOf ['9'] 9
    ∧ rowToIndex hostBuiltins (.str ['9']) = some 8
    ∧ columnToIndex hostBuiltins (.str ['1']) = some 0
    ∧ ((rowToIndex hostBuiltins (.num (.int 9)) = indexOfInteger 9
        ∧ columnToIndex hostBuiltins (.num (.int 9)) = indexOfInteger 9)
      ∧ (∀ s, IsDecimalOf s 9 →
          rowToIndex hostBuiltins (.str s) = indexOfInteger 9
          ∧ columnToIndex hostBuiltins (.str s) = indexOfInteger 9)
      ∧ ((1 ≤ (9 : Int) ∧ (9 : Int) ≤ 9 → indexOfInteger 9 = some ((9 : Int) - 1).toNat)
        ∧ ((9 : Int) = 0 → indexOfInteger 9 = some 0)
        ∧ ((9 : Int) < 0 ∨ (9 : Int) < 9 → indexOfInteger 9 = none))
      ∧ (∀ x k, rowToIndex hostBuiltins x = some k → k < 9)
      ∧ (∀ x k, columnToIndex hostBuiltins x = some k → k < 9)) :=
  ⟨hostBuiltins_conforms, Or.inl ⟨by decide, by decide⟩, by decide, by decide,
    numeric_coordinates hostBuiltins hostBuiltins_conforms 9⟩

/-! ## The conflict report of the check route -/

theorem conflictKinds_spec (a b c : Bool) :
    (conflictKinds a b c).Sublist ["row", "column", "region"]
    ∧ ("row" ∈ conflictKinds a b c ↔ a = false)
    ∧ ("column" ∈ conflictKinds a b c ↔ b = false)
    ∧ ("region" ∈ conflictKinds a b c ↔ c = false) := by
  cases a <;> cases b <;> cases c <;> decide

theorem toNat_ofNat_small (n : Nat) (h : n < 128) : (Char.ofNat n).toNat = n := by
  interval_cases n <;> rfl

theorem rowToIndex_coordinate_letter (B : Builtins) (hB : B.Conforms) (row : Char)
    (hrow : ('A' ≤ row ∧ row ≤ 'I') ∨ ('a' ≤ row ∧ row ≤ 'i')) :
    rowToIndex B (.str [row]) = some ((asciiUpper row).toNat - 65) := by
  have hnat : (65 ≤ row.toNat ∧ row.toNat ≤ 73) ∨ (97 ≤ row.toNat ∧ row.toNat ≤ 105) := hrow
  have halpha : row.isAlpha = true := by rw [isAlpha_iff]; omega
  have htrim : trimSpaces [row] = [row] :=
    trimSpaces_eq_self [row] fun ch hch => by
      rw [List.mem_singleton.1 hch]
      exact isTrimmed_eq_false row (by omega)
  rw [rowToIndex_ascii_letter B hB [row] row htrim halpha, if_pos]
  unfold asciiUpper
  split_ifs with hlow
  · have h1 : 97 ≤ row.toNat := hlow.1
    have h2 : row.toNat ≤ 105 := by omega
    rw [toNat_ofNat_small _ (by omega)]
    omega
  · have : ¬ (97 ≤ row.toNat ∧ row.toNat ≤ 122) := hlow
    omega

theorem columnToIndex_coordinate_digit (B : Builtins) (hB : B.Conforms) (column : Char)
    (hcol : '1' ≤ column ∧ column ≤ '9') :
    columnToIndex B (.str [column]) = some (column.toNat - 49) := by
  have hnat : 49 ≤ column.toNat ∧ column.toNat ≤ 57 := hcol
  have hdigit : column.isDigit = true := by rw [isDigit_iff]; omega
  have hval : decimalValue [column] = some (column.toNat - 48) := by
    simp [decimalValue, hdigit]
  have hdec : IsDecimalOf [column] ((column.toNat - 48 : Nat) : Int) :=
    Or.inl ⟨Int.natCast_nonneg _, by rw [Int.toNat_natCast]; exact hval⟩
  obtain ⟨hne, hchars, hnum⟩ := toNumber_decimal B hB [column] _ hdec
  obtain ⟨htrim, hne', -⟩ := decimal_string_facts B hB [column] hne hchars
  unfold columnToIndex
  rw [normalizeColumn_of_string B [column] hne', htrim, hnum]
  unfold indexOfInteger
  rw [if_pos (by omega)]
  congr 1
  omega

theorem checkRoute_report (B : Builtins) (hB : B.Conforms) (p coordinate : List Char)
    (row column v : Char) (hp : validate (.str p) = .ok)
    (hcoord : trimSpaces coordinate = [row, column])
    (hrow : ('A' ≤ row ∧ row ≤ 'I') ∨ ('a' ≤ row ∧ row ≤ 'i'))
    (hcol : '1' ≤ column ∧ column ≤ '9') (hv : '1' ≤ v ∧ v ≤ '9')
    (hdiff : p[((asciiUpper row).toNat - 65) * 9 + (column.toNat - 49)]? ≠ some v) :
    checkRoute B (some (.str p)) (some (.str coordinate)) (some (.str [v])) =
      if conflictKinds (checkRowPlacement B (.str p) (.str [row]) (.str [column]) (.str [v]))
          (checkColPlacement B (.str p) (.str [row]) (.str [column]) (.str [v]))
          (checkRegionPlacement B (.str p) (.str [row]) (.str [column]) (.str [v])) = [] then
        .valid
      else
        .conflict (conflictKinds
          (checkRowPlacement B (.str p) (.str [row]) (.str [column]) (.str [v]))
          (checkColPlacement B (.str p) (.str [row]) (.str [column]) (.str [v]))
          (checkRegionPlacement B (.str p) (.str [row]) (.str [column]) (.str [v]))) := by
  have hplen : p.length = 81 := ((validate_eq_ok p).1 hp).1
  have hpne : p.isEmpty = false := by
    cases p with
    | nil => simp at hplen
    | cons a l => rfl
  have hcne : coordinate.isEmpty = false := by
    cases coordinate with
    | nil => simp [trimSpaces] at hcoord
    | cons a l => rfl
  have htrim : B.trim coordinate = [row, column] := by rw [hB.trim_eq, hcoord]
  have hiscoord : isCoordinate [row, column] = true := by
    simp only [isCoordinate, Bool.and_eq_true, Bool.or_eq_true, decide_eq_true_eq]
    exact ⟨hrow, hcol⟩
  have hisdigit : isDigitValue [v] = true := by
    simp only [isDigitValue, Bool.and_eq_true, decide_eq_true_eq]
    exact hv
  have hri := rowToIndex_coordinate_letter B hB row hrow
  have hci := columnToIndex_coordinate_digit B hB column hcol
  have hdiffers : differsFrom p[((asciiUpper row).toNat - 65) * 9 + (column.toNat - 49)]?
      (.str [v]) = true := by
    unfold differsFrom
    cases hcur : p[((asciiUpper row).toNat - 65) * 9 + (column.toNat - 49)]? with
    | none => simp
    | some ch =>
      have : ch ≠ v := fun e => hdiff (by rw [hcur, e])
      simp [this]
  unfold checkRoute
  simp only [isFalsy, hpne, hcne, List.isEmpty_cons, Bool.or_self, Bool.false_eq_true,
    if_false, hp, htrim, hiscoord, Builtins.toStr, hisdigit, Bool.not_true, List.take_succ_cons,
    List.take_zero, List.drop_succ_cons, List.drop_zero, hri, hci, SIZE, hdiffers, if_true]
  unfold conflictKinds
  cases checkRowPlacement B (.str p) (.str [row]) (.str [column]) (.str [v]) <;>
    cases checkColPlacement B (.str p) (.str [row]) (.str [column]) (.str [v]) <;>
    cases checkRegionPlacement B (.str p) (.str [row]) (.str [column]) (.str [v]) <;>
    simp

/-- C18: on a valid puzzle string, a coordinate that trims to a letter `A..I`
(either case) followed by a digit `1..9`, and a digit value other than the
character in the target cell, the route answers `{ valid: true }` when the list
of conflicts is empty and `{ valid: false, conflict }` otherwise, where the
list holds, in the order row, column, region, the kinds whose check function
returned `false`. -/
theorem checkRoute_conflicts (B : Builtins) (hB : B.Conforms) (p coordinate : List Char)
    (row column v : Char) (hp : validate (.str p) = .ok)
    (hcoord : trimSpaces coordinate = [row, column])
    (hrow : ('A' ≤ row ∧ row ≤ 'I') ∨ ('a' ≤ row ∧ row ≤ 'i'))
    (hcol : '1' ≤ column ∧ column ≤ '9') (hv : '1' ≤ v ∧ v ≤ '9')
    (hdiff : p[((asciiUpper row).toNat - 65) * 9 + (column.toNat - 49)]? ≠ some v) :
    (checkRoute B (some (.str p)) (some (.str coordinate)) (some (.str [v])) =
      if conflictKinds (checkRowPlacement B (.str p) (.str [row]) (.str [column]) (.str [v]))
          (checkColPlacement B (.str p) (.str [row]) (.str [column]) (.str [v]))
          (checkRegionPlacement B (.str p) (.str [row]) (.str [column]) (.str [v])) = [] then
        .valid
      else
        .conflict (conflictKinds
          (checkRowPlacement B (.str p) (.str [row]) (.str [column]) (.str [v]))
          (checkColPlacement B (.str p) (.str [row]) (.str [column]) (.str [v]))
          (checkRegionPlacement B (.str p) (.str [row]) (.str [column]) (.str [v]))))
    ∧ (∀ rowOk colOk regionOk : Bool,
        (conflictKinds rowOk colOk regionOk).Sublist ["row", "column", "region"]
        ∧ ("row" ∈ conflictKinds rowOk colOk regionOk ↔ rowOk = false)
        ∧ ("column" ∈ conflictKinds rowOk colOk regionOk ↔ colOk = false)
        ∧ ("region" ∈ conflictKinds rowOk colOk regionOk ↔ regionOk = false)) :=
  ⟨checkRoute_report B hB p coordinate row column v hp hcoord hrow hcol hv hdiff,
    conflictKinds_spec⟩

theorem checkRoute_conflicts_witness :
    checkRoute hostBuiltins (some (.str fixturePuzzle)) (some (.str ['A', '2']))
        (some (.str ['3'])) = .valid
    ∧ checkRoute hostBuiltins (some (.str fixturePuzzle)) (some (.str ['A', '2']))
        (some (.str ['4'])) = .conflict ["row"]
    ∧ ((checkRoute hostBuiltins (some (.str fixturePuzzle)) (some (.str ['A', '2']))
          (some (.str ['4'])) =
        if conflictKinds
            (checkRowPlacement hostBuiltins (.str fixturePuzzle) (.str ['A']) (.str ['2'])
              (.str ['4']))
            (checkColPlacement hostBuiltins (.str fixturePuzzle) (.str ['A']) (.str ['2'])
              (.str ['4']))
            (checkRegionPlacement hostBuiltins (.str fixturePuzzle) (.str ['A']) (.str ['2'])
              (.str ['4'])) = [] then
          .valid
        else
          .conflict (conflictKinds
            (checkRowPlacement hostBuiltins (.str fixturePuzzle) (.str ['A']) (.str ['2'])
              (.str ['4']))
            (checkColPlacement hostBuiltins (.str fixturePuzzle) (.str ['A']) (.str ['2'])
              (.str ['4']))
            (checkRegionPlacement hostBuiltins (.str fixturePuzzle) (.str ['A']) (.str ['2'])
              (.str ['4']))))
      ∧ (∀ rowOk colOk regionOk : Bool,
          (conflictKinds rowOk colOk regionOk).Sublist ["row", "column", "region"]
          ∧ ("row" ∈ conflictKinds rowOk colOk regionOk ↔ rowOk = false)
          ∧ ("column" ∈ conflictKinds rowOk colOk regionOk ↔ colOk = false)
          ∧ ("region" ∈ conflictKinds rowOk colOk regionOk ↔ regionOk = false))) :=
  ⟨by decide, by decide,
    checkRoute_conflicts hostBuiltins hostBuiltins_conforms fixturePuzzle ['A', '2'] 'A' '2' '4'
      fixture_valid (by decide) (by decide) (by decide) (by decide) (by decide)⟩

/-! ## The check route on a value that is already placed -/

theorem checkRoute_eq_checkRouteWith (B : Builtins) (puzzle coordinate value : Option JSVal) :
    checkRoute B puzzle coordinate value =
      checkRouteWith B (checkRowPlacement B) (checkColPlacement B) (checkRegionPlacement B)
        puzzle coordinate value := rfl

theorem checkRouteWith_placed (B : Builtins) (hB : B.Conforms)
    (rowCheck colCheck regionCheck : JSVal → JSVal → JSVal → JSVal → Bool)
    (p coordinate : List Char) (row column d : Char) (hp : validate (.str p) = .ok)
    (hcoord : trimSpaces coordinate = [row, column])
    (hrow : ('A' ≤ row ∧ row ≤ 'I') ∨ ('a' ≤ row ∧ row ≤ 'i'))
    (hcol : '1' ≤ column ∧ column ≤ '9') (hd : '1' ≤ d ∧ d ≤ '9')
    (hcell : p[((asciiUpper row).toNat - 65) * 9 + (column.toNat - 49)]? = some d) :
    checkRouteWith B rowCheck colCheck regionCheck (some (.str p)) (some (.str coordinate))
      (some (.str [d])) = .valid := by
  have hplen : p.length = 81 := ((validate_eq_ok p).1 hp).1
  have hpne : p.isEmpty = false := by
    cases p with
    | nil => simp at hplen
    | cons a l => rfl
  have hcne : coordinate.isEmpty = false := by
    cases coordinate with
    | nil => simp [trimSpaces] at hcoord
    | cons a l => rfl
  have htrim : B.trim coordinate = [row, column] := by rw [hB.trim_eq, hcoord]
  have hiscoord : isCoordinate [row, column] = true := by
    simp only [isCoordinate, Bool.and_eq_true, Bool.or_eq_true, decide_eq_true_eq]
    exact ⟨hrow, hcol⟩
  have hisdigit : isDigitValue [d] = true := by
    simp only [isDigitValue, Bool.and_eq_true, decide_eq_true_eq]
    exact hd
  have hri := rowToIndex_coordinate_letter B hB row hrow
  have hci := columnToIndex_coordinate_digit B hB column hcol
  have hsame : differsFrom p[((asciiUpper row).toNat - 65) * 9 + (column.toNat - 49)]?
      (.str [d]) = false := by
    rw [hcell]
    simp [differsFrom]
  unfold checkRouteWith
  simp only [isFalsy, hpne, hcne, List.isEmpty_cons, Bool.or_self, Bool.false_eq_true,
    if_false, hp, htrim, hiscoord, Builtins.toStr, hisdigit, Bool.not_true, List.take_succ_cons,
    List.take_zero, List.drop_succ_cons, List.drop_zero, hri, hci, SIZE, hsame]
  simp

/-- C21: on a valid puzzle string and a coordinate (letter `A..I`, digit
`1..9`) whose cell already holds the digit `d`, the check route called with the
one-character string `d` answers `{ valid: true }`, and it does so whatever
the three check functions would return: the answer is the same with any other
functions in their place. -/
theorem checkRoute_placed (B : Builtins) (hB : B.Conforms) (p coordinate : List Char)
    (row column d : Char) (hp : validate (.str p) = .ok)
    (hcoord : trimSpaces coordinate = [row, column])
    (hrow : ('A' ≤ row ∧ row ≤ 'I') ∨ ('a' ≤ row ∧ row ≤ 'i'))
    (hcol : '1' ≤ column ∧ column ≤ '9') (hd : '1' ≤ d ∧ d ≤ '9')
    (hcell : p[((asciiUpper row).toNat - 65) * 9 + (column.toNat - 49)]? = some d) :
    checkRoute B (some (.str p)) (some (.str coordinate)) (some (.str [d])) = .valid
    ∧ ∀ rowCheck colCheck regionCheck : JSVal → JSVal → JSVal → JSVal → Bool,
        checkRouteWith B rowCheck colCheck regionCheck (some (.str p)) (some (.str coordinate))
          (some (.str [d])) = .valid := by
  refine ⟨?_, fun rowCheck colCheck regionCheck =>
    checkRouteWith_placed B hB rowCheck colCheck regionCheck p coordinate row column d hp hcoord
      hrow hcol hd hcell⟩
  rw [checkRoute_eq_checkRouteWith]
  exact checkRouteWith_placed B hB _ _ _ p coordinate row column d hp hcoord hrow hcol hd hcell

theorem checkRoute_placed_witness :
    validate (.str allNines) = .ok
    ∧ allNines[((asciiUpper 'A').toNat - 65) * 9 + ('1'.toNat - 49)]? = some '9'
    ∧ checkRowPlacement hostBuiltins (.str allNines) (.str ['A']) (.str ['1']) (.str ['9']) = false
    ∧ checkColPlacement hostBuiltins (.str allNines) (.str ['A']) (.str ['1']) (.str ['9']) = false
    ∧ checkRegionPlacement hostBuiltins (.str allNines) (.str ['A']) (.str ['1']) (.str ['9'])
        = false
    ∧ (checkRoute hostBuiltins (some (.str allNines)) (some (.str ['A', '1']))
          (some (.str ['9'])) = .valid
      ∧ ∀ rowCheck colCheck regionCheck : JSVal → JSVal → JSVal → JSVal → Bool,
          checkRouteWith hostBuiltins rowCheck colCheck regionCheck (some (.str allNines))
            (some (.str ['A', '1'])) (some (.str ['9'])) = .valid) :=
  ⟨by decide, by decide, by decide, by decide, by decide,
    checkRoute_placed hostBuiltins hostBuiltins_conforms allNines ['A', '1'] 'A' '1' '9'
      (by decide) (by decide) (by decide) (by decide) (by decide) (by decide)⟩

/-! ## The checks on a value without a string conversion -/

theorem normalizeInputsOnAny_plain (B : Builtins) (puzzleString row column value : JSVal) :
    _normalizeInputsOnAny B puzzleString row column (.plain value) =
      .returned (_normalizeInputs B puzzleString row column value) := by
  unfold _normalizeInputsOnAny
  split_ifs with hvalid
  · have hnone : _normalizeInputs B puzzleString row column value = none := by
      apply normalizeInputs_eq_none
      left
      intro hok
      rw [hok] at hvalid
      simp [Validation.valid] at hvalid
    rw [hnone]
  · rfl

theorem normalizeInputsOnAny_noString (B : Builtins) (puzzleString row column : JSVal) :
    _normalizeInputsOnAny B puzzleString row column .noString =
      if validate puzzleString = .ok then .typeError else .returned none := by
  unfold _normalizeInputsOnAny
  cases hv : validate puzzleString <;> simp [Validation.valid, _normalizeValueOnAny]

/-- On a value whose string conversion returns, the three methods return what
`checkRowPlacement`, `checkColPlacement` and `checkRegionPlacement` return. -/
theorem checksOnAny_plain (B : Builtins) (puzzleString row column value : JSVal) :
    checkRowPlacementOnAny B puzzleString row column (.plain value) =
      .returned (checkRowPlacement B puzzleString row column value)
    ∧ checkColPlacementOnAny B puzzleString row column (.plain value) =
      .returned (checkColPlacement B puzzleString row column value)
    ∧ checkRegionPlacementOnAny B puzzleString row column (.plain value) =
      .returned (checkRegionPlacement B puzzleString row column value) := by
  simp [checkRowPlacementOnAny, checkColPlacementOnAny, checkRegionPlacementOnAny,
    normalizeInputsOnAny_plain]

/-- On a value without a string conversion the three methods throw when the
puzzle string passes `validate`, whatever the row and the column are, and
return `false` when it does not. -/
theorem checksOnAny_noString (B : Builtins) (puzzleString row column : JSVal) :
    checkRowPlacementOnAny B puzzleString row column .noString =
      (if validate puzzleString = .ok then .typeError else .returned false)
    ∧ checkColPlacementOnAny B puzzleString row column .noString =
      (if validate puzzleString = .ok then .typeError else .returned false)
    ∧ checkRegionPlacementOnAny B puzzleString row column .noString =
      (if validate puzzleString = .ok then .typeError else .returned false) := by
  simp only [checkRowPlacementOnAny, checkColPlacementOnAny, checkRegionPlacementOnAny,
    normalizeInputsOnAny_noString]
  by_cases hv : validate puzzleString = .ok <;> simp [hv]

/-- C12, failing input: with the fixture puzzle, the row `'Z'`, which fails row
normalisation, and a value without a string conversion, each of the three check
functions throws a `TypeError` instead of returning `false`. -/
theorem checks_throw_without_string :
    validate (.str fixturePuzzle) = .ok
    ∧ _normalizeRow hostBuiltins (.str ['Z']) = none
    ∧ checkRowPlacementOnAny hostBuiltins (.str fixturePuzzle) (.str ['Z']) (.str ['1'])
        .noString = .typeError
    ∧ checkColPlacementOnAny hostBuiltins (.str fixturePuzzle) (.str ['Z']) (.str ['1'])
        .noString = .typeError
    ∧ checkRegionPlacementOnAny hostBuiltins (.str fixturePuzzle) (.str ['Z']) (.str ['1'])
        .noString = .typeError := by
  have h := checksOnAny_noString hostBuiltins (.str fixturePuzzle) (.str ['Z']) (.str ['1'])
  rw [if_pos fixture_valid] at h
  exact ⟨fixture_valid, by decide, h.1, h.2.1, h.2.2⟩

end SudokuSolver
